import Mathlib

/-!
Verification development for the session fleet manager and parallel
exploration/execution engine of the selenium_agent repository.

The TypeScript source is shallowly embedded in Lean:
* pure string manipulation (URL normalization, id generation) is modelled on
  `List Char` / `String`;
* the JavaScript `Map` (insertion-ordered, update-in-place) is modelled as an
  association list with update-or-append insertion;
* remote I/O (WebDriver calls, session creation, page navigation) is modelled
  by explicit outcome oracles passed to the embedded functions;
* JavaScript numbers used as counters/counts are modelled as `Nat`
  (element-count differences as `Int`);
* wall-clock timestamps (`Date.now()`, `startedAt`, `mergedAt`, …) are omitted
  from the records: no claim mentions them.
-/

/-! ## Character-list utilities (JS string primitives) -/

/-- Model of JS `String.prototype.trim` on a char list. -/
def charTrim (l : List Char) : List Char :=
  ((l.dropWhile Char.isWhitespace).reverse.dropWhile Char.isWhitespace).reverse

/-- Model of JS `String.prototype.slice(0, n)`. -/
def charTake (n : Nat) (l : List Char) : List Char := l.take n

/-- Whether the first list is an initial segment of the second. -/
def isPreOf : List Char → List Char → Bool
  | [], _ => true
  | _ :: _, [] => false
  | a :: as, b :: bs => a == b && isPreOf as bs

/-- Model of JS `hay.indexOf(needle) !== -1`: substring containment. -/
def containsSub (needle : List Char) : List Char → Bool
  | [] => isPreOf needle []
  | b :: bs => isPreOf needle (b :: bs) || containsSub needle bs

/-- Lexicographic order on char lists by code point, the comparison
`URLSearchParams.sort` uses on parameter names. -/
def lexLe : List Char → List Char → Bool
  | [], _ => true
  | _ :: _, [] => false
  | a :: as, b :: bs =>
    if a < b then true
    else if b < a then false
    else lexLe as bs

theorem lexLe_refl (l : List Char) : lexLe l l = true := by
  induction l with
  | nil => rfl
  | cons a as ih => simp [lexLe, ih]

theorem lexLe_cons_iff {x y : Char} {xs ys : List Char} :
    lexLe (x :: xs) (y :: ys) = true ↔ x < y ∨ (x = y ∧ lexLe xs ys = true) := by
  rcases lt_trichotomy x y with h | h | h
  · simp [lexLe, h]
  · subst h; simp [lexLe, lt_irrefl]
  · simp [lexLe, asymm h, h, ne_of_gt h]

theorem lexLe_total (a b : List Char) : lexLe a b = true ∨ lexLe b a = true := by
  induction a generalizing b with
  | nil => exact Or.inl rfl
  | cons x xs ih =>
    cases b with
    | nil => exact Or.inr rfl
    | cons y ys =>
      rcases lt_trichotomy x y with h | h | h
      · exact Or.inl (lexLe_cons_iff.mpr (Or.inl h))
      · subst h
        rcases ih ys with h' | h'
        · exact Or.inl (lexLe_cons_iff.mpr (Or.inr ⟨rfl, h'⟩))
        · exact Or.inr (lexLe_cons_iff.mpr (Or.inr ⟨rfl, h'⟩))
      · exact Or.inr (lexLe_cons_iff.mpr (Or.inl h))

theorem lexLe_trans {a b c : List Char} (hab : lexLe a b = true)
    (hbc : lexLe b c = true) : lexLe a c = true := by
  induction a generalizing b c with
  | nil => rfl
  | cons x xs ih =>
    cases b with
    | nil => simp [lexLe] at hab
    | cons y ys =>
      cases c with
      | nil => simp [lexLe] at hbc
      | cons z zs =>
        rcases lexLe_cons_iff.mp hab with h₁ | ⟨h₁, h₁'⟩ <;>
          rcases lexLe_cons_iff.mp hbc with h₂ | ⟨h₂, h₂'⟩
        · exact lexLe_cons_iff.mpr (Or.inl (lt_trans h₁ h₂))
        · exact lexLe_cons_iff.mpr (Or.inl (h₂ ▸ h₁))
        · exact lexLe_cons_iff.mpr (Or.inl (h₁ ▸ h₂))
        · exact lexLe_cons_iff.mpr (Or.inr ⟨h₁.trans h₂, ih h₁' h₂'⟩)

theorem lexLe_antisymm {a b : List Char} (hab : lexLe a b = true)
    (hba : lexLe b a = true) : a = b := by
  induction a generalizing b with
  | nil =>
    cases b with
    | nil => rfl
    | cons y ys => simp [lexLe] at hba
  | cons x xs ih =>
    cases b with
    | nil => simp [lexLe] at hab
    | cons y ys =>
      rcases lexLe_cons_iff.mp hab with h₁ | ⟨h₁, h₁'⟩ <;>
        rcases lexLe_cons_iff.mp hba with h₂ | ⟨h₂, h₂'⟩
      · exact absurd h₂ (asymm h₁)
      · exact absurd h₂ (ne_of_gt h₁)
      · exact absurd h₁ (ne_of_gt h₂)
      · rw [h₁, ih h₁' h₂']

/-- Split a char list at the first occurrence of `c`; the separator is dropped.
Returns `(l, none)` when `c` does not occur. -/
def splitFirst (c : Char) : List Char → List Char × Option (List Char)
  | [] => ([], none)
  | x :: xs =>
    if x = c then ([], some xs)
    else
      let r := splitFirst c xs
      (x :: r.1, r.2)

theorem splitFirst_not_mem {c : Char} {l : List Char} (h : c ∉ l) :
    splitFirst c l = (l, none) := by
  induction l with
  | nil => rfl
  | cons x xs ih =>
    simp only [List.mem_cons, not_or] at h
    simp [splitFirst, Ne.symm h.1, ih h.2]

theorem splitFirst_append {c : Char} {l₁ l₂ : List Char} (h : c ∉ l₁) :
    splitFirst c (l₁ ++ c :: l₂) = (l₁, some l₂) := by
  induction l₁ with
  | nil => simp [splitFirst]
  | cons x xs ih =>
    simp only [List.mem_cons, not_or] at h
    simp [splitFirst, Ne.symm h.1, ih h.2]

/-- Split on every occurrence of the separator (model of JS `split(sep)`). -/
def splitSep (c : Char) : List Char → List (List Char)
  | [] => [[]]
  | x :: xs =>
    if x = c then [] :: splitSep c xs
    else
      match splitSep c xs with
      | [] => [[x]]
      | h :: t => (x :: h) :: t

/-- Join with a separator char (model of JS `Array.prototype.join(sep)`). -/
def joinSep (c : Char) : List (List Char) → List Char
  | [] => []
  | [x] => x
  | x :: xs => x ++ c :: joinSep c xs

theorem splitSep_ne_nil (c : Char) (l : List Char) : splitSep c l ≠ [] := by
  induction l with
  | nil => simp [splitSep]
  | cons x xs ih =>
    by_cases h : x = c
    · simp [splitSep, h]
    · simp only [splitSep, h, if_false]
      cases hs : splitSep c xs with
      | nil => simp
      | cons a t => simp

theorem splitSep_no_sep {c : Char} {l : List Char} (h : c ∉ l) :
    splitSep c l = [l] := by
  induction l with
  | nil => rfl
  | cons x xs ih =>
    simp only [List.mem_cons, not_or] at h
    simp [splitSep, Ne.symm h.1, ih h.2]

theorem splitSep_append {c : Char} {l₁ l₂ : List Char} (h : c ∉ l₁) :
    splitSep c (l₁ ++ c :: l₂) = l₁ :: splitSep c l₂ := by
  induction l₁ with
  | nil => simp [splitSep]
  | cons x xs ih =>
    simp only [List.mem_cons, not_or] at h
    have hx : ¬ x = c := fun hh => h.1 hh.symm
    rw [List.cons_append, splitSep, if_neg hx, ih h.2]

theorem splitSep_joinSep {c : Char} {chunks : List (List Char)}
    (hne : chunks ≠ []) (h : ∀ ch ∈ chunks, c ∉ ch) :
    splitSep c (joinSep c chunks) = chunks := by
  induction chunks with
  | nil => exact absurd rfl hne
  | cons x xs ih =>
    cases xs with
    | nil =>
      simp only [joinSep]
      exact splitSep_no_sep (h x (by simp))
    | cons y ys =>
      have hx : c ∉ x := h x (by simp)
      have hys : (y :: ys : List (List Char)) ≠ [] := by simp
      rw [joinSep, splitSep_append hx, ih hys (fun ch hch => h ch (by simp [hch]))]
      exact hys

/-! ## Decimal rendering of counters (JS template literals over numbers) -/

/-- Decimal digits of a natural number, least significant first (a fuel
parameter makes the recursion structural, so concrete values reduce). -/
def natDigitsRevGo : Nat → Nat → List Nat
  | _, 0 => []
  | 0, _ + 1 => []
  | fuel + 1, n + 1 => (n + 1) % 10 :: natDigitsRevGo fuel ((n + 1) / 10)

def natDigitsRev (n : Nat) : List Nat := natDigitsRevGo n n

theorem natDigitsRevGo_fuel_eq :
    ∀ (n f g : Nat), n ≤ f → n ≤ g → natDigitsRevGo f n = natDigitsRevGo g n := by
  intro n
  induction n using Nat.strong_induction_on with
  | _ n ih =>
    intro f g hf hg
    cases n with
    | zero => cases f <;> cases g <;> rfl
    | succ m =>
      cases f with
      | zero => omega
      | succ f1 =>
        cases g with
        | zero => omega
        | succ g1 =>
          rw [natDigitsRevGo, natDigitsRevGo]
          have hlt : (m + 1) / 10 < m + 1 := Nat.div_lt_self (by omega) (by omega)
          rw [ih ((m + 1) / 10) hlt f1 g1 (by omega) (by omega)]

theorem natDigitsRev_succ (n : Nat) :
    natDigitsRev (n + 1) = (n + 1) % 10 :: natDigitsRev ((n + 1) / 10) := by
  show natDigitsRevGo (n + 1) (n + 1) = _
  rw [natDigitsRevGo]
  have hle : (n + 1) / 10 ≤ n := by
    have := Nat.div_lt_self (Nat.succ_pos n) (show 1 < 10 by omega)
    omega
  rw [natDigitsRevGo_fuel_eq ((n + 1) / 10) n ((n + 1) / 10) hle (Nat.le_refl _)]
  rfl

def digitsVal : List Nat → Nat
  | [] => 0
  | d :: ds => d + 10 * digitsVal ds

theorem digitsVal_natDigitsRev : ∀ n : Nat, digitsVal (natDigitsRev n) = n := by
  intro n
  induction n using Nat.strong_induction_on with
  | _ n ih =>
    cases n with
    | zero => rfl
    | succ m =>
      have hlt : (m + 1) / 10 < m + 1 := Nat.div_lt_self (by omega) (by omega)
      rw [natDigitsRev_succ, digitsVal, ih ((m + 1) / 10) hlt, Nat.mod_add_div]

theorem natDigitsRev_lt_ten : ∀ n : Nat, ∀ d ∈ natDigitsRev n, d < 10 := by
  intro n
  induction n using Nat.strong_induction_on with
  | _ n ih =>
    cases n with
    | zero => intro d hd; simp [natDigitsRev, natDigitsRevGo] at hd
    | succ m =>
      intro d hd
      rw [natDigitsRev_succ] at hd
      rcases List.mem_cons.mp hd with h | h
      · subst h; exact Nat.mod_lt _ (by omega)
      · have hlt : (m + 1) / 10 < m + 1 := Nat.div_lt_self (by omega) (by omega)
        exact ih ((m + 1) / 10) hlt d h

theorem natDigitsRev_inj {a b : Nat} (h : natDigitsRev a = natDigitsRev b) :
    a = b := by
  have := congrArg digitsVal h
  rwa [digitsVal_natDigitsRev, digitsVal_natDigitsRev] at this

/-- Decimal string of a counter, the model of a JS number interpolated into a
template literal. -/
def natStr (n : Nat) : String :=
  if n = 0 then "0" else String.mk ((natDigitsRev n).reverse.map Nat.digitChar)

theorem digitChar_inj10 {a b : Nat} (ha : a < 10) (hb : b < 10)
    (h : Nat.digitChar a = Nat.digitChar b) : a = b := by
  have H : ∀ x y : Fin 10, Nat.digitChar x.val = Nat.digitChar y.val → x = y := by decide
  have := H ⟨a, ha⟩ ⟨b, hb⟩ h
  simpa using congrArg Fin.val this

theorem digitChar_isDigit {d : Nat} (hd : d < 10) :
    (Nat.digitChar d).isDigit = true := by
  have H : ∀ x : Fin 10, (Nat.digitChar x.val).isDigit = true := by decide
  exact H ⟨d, hd⟩

theorem map_digitChar_inj {l₁ l₂ : List Nat} (h₁ : ∀ d ∈ l₁, d < 10)
    (h₂ : ∀ d ∈ l₂, d < 10)
    (h : l₁.map Nat.digitChar = l₂.map Nat.digitChar) : l₁ = l₂ := by
  induction l₁ generalizing l₂ with
  | nil => cases l₂ with
    | nil => rfl
    | cons y ys => simp at h
  | cons x xs ih =>
    cases l₂ with
    | nil => simp at h
    | cons y ys =>
      simp only [List.map_cons, List.cons.injEq] at h
      have hx : x = y :=
        digitChar_inj10 (h₁ x (by simp)) (h₂ y (by simp)) h.1
      rw [hx, ih (fun d hd => h₁ d (by simp [hd])) (fun d hd => h₂ d (by simp [hd])) h.2]

theorem natStr_inj {a b : Nat} (h : natStr a = natStr b) : a = b := by
  by_cases ha : a = 0 <;> by_cases hb : b = 0
  · rw [ha, hb]
  · exfalso
    rw [natStr, if_pos ha, natStr, if_neg hb] at h
    have hd := congrArg String.data h
    simp only [String.data] at hd
    have h0 : (['0'] : List Char) = (natDigitsRev b).reverse.map Nat.digitChar := hd
    cases hL : (natDigitsRev b).reverse with
    | nil =>
      rw [hL] at h0; simp at h0
    | cons d ds =>
      rw [hL] at h0
      cases ds with
      | nil =>
        simp only [List.map_cons, List.map_nil, List.cons.injEq] at h0
        have hd10 : d < 10 := by
          have : d ∈ natDigitsRev b := by
            have : d ∈ (natDigitsRev b).reverse := by rw [hL]; simp
            simpa using this
          exact natDigitsRev_lt_ten b d this
        have : (0 : Nat) = d := digitChar_inj10 (by omega) hd10 h0.1
        have hrev : (natDigitsRev b).reverse = [0] := by rw [hL, ← this]
        have : natDigitsRev b = [0] := by
          have := congrArg List.reverse hrev
          simpa using this
        have := congrArg digitsVal this
        rw [digitsVal_natDigitsRev] at this
        simp [digitsVal] at this
        exact hb this
      | cons e es => simp at h0
  · exfalso
    rw [natStr, if_neg ha, natStr, if_pos hb] at h
    have hd := congrArg String.data h
    simp only [String.data] at hd
    have h0 : (['0'] : List Char) = (natDigitsRev a).reverse.map Nat.digitChar := hd.symm
    cases hL : (natDigitsRev a).reverse with
    | nil =>
      rw [hL] at h0; simp at h0
    | cons d ds =>
      rw [hL] at h0
      cases ds with
      | nil =>
        simp only [List.map_cons, List.map_nil, List.cons.injEq] at h0
        have hd10 : d < 10 := by
          have : d ∈ natDigitsRev a := by
            have : d ∈ (natDigitsRev a).reverse := by rw [hL]; simp
            simpa using this
          exact natDigitsRev_lt_ten a d this
        have : (0 : Nat) = d := digitChar_inj10 (by omega) hd10 h0.1
        have hrev : (natDigitsRev a).reverse = [0] := by rw [hL, ← this]
        have : natDigitsRev a = [0] := by
          have := congrArg List.reverse hrev
          simpa using this
        have := congrArg digitsVal this
        rw [digitsVal_natDigitsRev] at this
        simp [digitsVal] at this
        exact ha this
      | cons e es => simp at h0
  · rw [natStr, if_neg ha, natStr, if_neg hb] at h
    have hd := congrArg String.data h
    simp only [String.data] at hd
    have := map_digitChar_inj
      (fun d hdm => natDigitsRev_lt_ten a d (by simpa using hdm))
      (fun d hdm => natDigitsRev_lt_ten b d (by simpa using hdm)) hd
    have := congrArg List.reverse this
    simp only [List.reverse_reverse] at this
    exact natDigitsRev_inj this

theorem natStr_all_digits (n : Nat) : ∀ c ∈ (natStr n).data, c.isDigit = true := by
  intro c hc
  by_cases hn : n = 0
  · rw [natStr, if_pos hn] at hc
    simp only [String.data] at hc
    have : c = '0' := by simpa using hc
    rw [this]; decide
  · rw [natStr, if_neg hn] at hc
    simp only [String.data] at hc
    rcases List.mem_map.mp hc with ⟨d, hd, hdc⟩
    rw [← hdc]
    exact digitChar_isDigit (natDigitsRev_lt_ten n d (by simpa using hd))

theorem prefixed_natStr_inj {p : String} {a b : Nat}
    (h : p ++ natStr a = p ++ natStr b) : a = b := by
  have hd := congrArg String.data h
  rw [String.data_append, String.data_append] at hd
  exact natStr_inj (String.ext (List.append_cancel_left hd))

theorem expId_ne_error (k : Nat) : "exp-" ++ natStr k ≠ "exp-error" := by
  intro h
  have hd := congrArg String.data h
  rw [String.data_append] at hd
  have herr : ("exp-error").data = ("exp-").data ++ ("error").data := by decide
  rw [herr] at hd
  have : (natStr k).data = ("error").data := List.append_cancel_left hd
  have he : 'e' ∈ (natStr k).data := by rw [this]; decide
  have := natStr_all_digits k 'e' he
  simp at this

/-! ## Generic stable insertion sort (models JS stable sorts) -/

def insertLe {α : Type} (le : α → α → Bool) (a : α) : List α → List α
  | [] => [a]
  | b :: l => if le a b then a :: b :: l else b :: insertLe le a l

def sortByLe {α : Type} (le : α → α → Bool) : List α → List α
  | [] => []
  | a :: l => insertLe le a (sortByLe le l)

theorem mem_insertLe {α : Type} (le : α → α → Bool) (a x : α) (l : List α) :
    x ∈ insertLe le a l ↔ x = a ∨ x ∈ l := by
  induction l with
  | nil => simp [insertLe]
  | cons b t ih =>
    by_cases h : le a b = true
    · simp [insertLe, h]
    · rw [insertLe, if_neg h]
      simp only [List.mem_cons, ih]
      tauto

theorem insertLe_perm {α : Type} (le : α → α → Bool) (a : α) (l : List α) :
    List.Perm (insertLe le a l) (a :: l) := by
  induction l with
  | nil => simp [insertLe]
  | cons b t ih =>
    by_cases h : le a b
    · simp [insertLe, h]
    · simp only [insertLe, h, if_false]
      exact (ih.cons b).trans (List.Perm.swap a b t)

theorem sortByLe_perm {α : Type} (le : α → α → Bool) (l : List α) :
    List.Perm (sortByLe le l) l := by
  induction l with
  | nil => simp [sortByLe]
  | cons a t ih =>
    exact (insertLe_perm le a (sortByLe le t)).trans (ih.cons a)

theorem insertLe_pairwise {α : Type} {le : α → α → Bool}
    (htotal : ∀ x y, le x y = true ∨ le y x = true)
    (htrans : ∀ x y z, le x y = true → le y z = true → le x z = true)
    {l : List α} (a : α) (hl : l.Pairwise (fun x y => le x y = true)) :
    (insertLe le a l).Pairwise (fun x y => le x y = true) := by
  induction l with
  | nil => simp [insertLe]
  | cons b t ih =>
    rcases List.pairwise_cons.mp hl with ⟨hb, ht⟩
    by_cases h : le a b
    · simp only [insertLe, h, if_true]
      refine List.pairwise_cons.mpr ⟨?_, hl⟩
      intro x hx
      rcases List.mem_cons.mp hx with hx | hx
      · rw [hx]; exact h
      · exact htrans a b x h (hb x hx)
    · simp only [insertLe, h, if_false]
      refine List.pairwise_cons.mpr ⟨?_, ih ht⟩
      intro x hx
      rcases (mem_insertLe le a x t).mp hx with hx | hx
      · rw [hx]
        rcases htotal a b with h' | h'
        · exact absurd h' h
        · exact h'
      · exact hb x hx

theorem sortByLe_pairwise {α : Type} {le : α → α → Bool}
    (htotal : ∀ x y, le x y = true ∨ le y x = true)
    (htrans : ∀ x y z, le x y = true → le y z = true → le x z = true)
    (l : List α) :
    (sortByLe le l).Pairwise (fun x y => le x y = true) := by
  induction l with
  | nil => simp [sortByLe]
  | cons a t ih => exact insertLe_pairwise htotal htrans a ih

theorem insertLe_eq_cons {α : Type} {le : α → α → Bool} {a : α} {l : List α}
    (h : ∀ b ∈ l, le a b = true) : insertLe le a l = a :: l := by
  cases l with
  | nil => rfl
  | cons b t => simp [insertLe, h b (by simp)]

theorem sortByLe_eq_self {α : Type} {le : α → α → Bool} {l : List α}
    (hl : l.Pairwise (fun x y => le x y = true)) : sortByLe le l = l := by
  induction l with
  | nil => rfl
  | cons a t ih =>
    rcases List.pairwise_cons.mp hl with ⟨ha, ht⟩
    rw [sortByLe, ih ht, insertLe_eq_cons ha]

theorem sortByLe_idem {α : Type} {le : α → α → Bool}
    (htotal : ∀ x y, le x y = true ∨ le y x = true)
    (htrans : ∀ x y z, le x y = true → le y z = true → le x z = true)
    (l : List α) : sortByLe le (sortByLe le l) = sortByLe le l :=
  sortByLe_eq_self (sortByLe_pairwise htotal htrans l)

/-- Two sorted lists that are permutations of each other and have duplicate-free
sort keys are equal. -/
theorem eq_of_perm_of_pairwise {α β : Type} (key : α → β) (keyle : β → β → Bool)
    (hanti : ∀ x y, keyle x y = true → keyle y x = true → x = y)
    {l₁ l₂ : List α} (hperm : List.Perm l₁ l₂)
    (hnd : (l₁.map key).Nodup)
    (hs₁ : l₁.Pairwise (fun a b => keyle (key a) (key b) = true))
    (hs₂ : l₂.Pairwise (fun a b => keyle (key a) (key b) = true)) : l₁ = l₂ := by
  induction l₁ generalizing l₂ with
  | nil => exact (List.Perm.nil_eq hperm).symm ▸ rfl
  | cons a t₁ ih =>
    cases l₂ with
    | nil => exact absurd hperm.symm (by simp)
    | cons b t₂ =>
      rcases List.pairwise_cons.mp hs₁ with ⟨ha, ht₁⟩
      rcases List.pairwise_cons.mp hs₂ with ⟨hb, ht₂⟩
      rw [List.map_cons, List.nodup_cons] at hnd
      by_cases hab : a = b
      · subst hab
        rw [ih hperm.cons_inv hnd.2 ht₁ ht₂]
      · exfalso
        have hbmem : b ∈ t₁ := by
          have : b ∈ a :: t₁ := hperm.symm.subset (by simp)
          rcases List.mem_cons.mp this with h | h
          · exact absurd h.symm hab
          · exact h
        have hamem : a ∈ t₂ := by
          have : a ∈ b :: t₂ := hperm.subset (by simp)
          rcases List.mem_cons.mp this with h | h
          · exact absurd h hab
          · exact h
        have h₁ : keyle (key a) (key b) = true := ha b hbmem
        have h₂ : keyle (key b) (key a) = true := hb a hamem
        have hk : key a = key b := hanti _ _ h₁ h₂
        have : key b ∈ t₁.map key := List.mem_map.mpr ⟨b, hbmem, rfl⟩
        exact hnd.1 (hk ▸ this)

/-! ## JsMap: insertion-ordered string-keyed map (model of the JS `Map`) -/

abbrev JsMap (α : Type) : Type := List (String × α)

namespace JsMap

/-- `Map.prototype.get`. -/
def getVal? {α : Type} : JsMap α → String → Option α
  | [], _ => none
  | (k', v) :: rest, k => if k' = k then some v else getVal? rest k

/-- `Map.prototype.has`. -/
def hasKey {α : Type} (m : JsMap α) (k : String) : Bool := (getVal? m k).isSome

/-- `Map.prototype.set`: update in place when the key exists, append otherwise. -/
def setVal {α : Type} : JsMap α → String → α → JsMap α
  | [], k, v => [(k, v)]
  | (k', v') :: rest, k, v =>
    if k' = k then (k', v) :: rest else (k', v') :: setVal rest k v

def keys {α : Type} (m : JsMap α) : List String := m.map Prod.fst

theorem getVal?_setVal_self {α : Type} (m : JsMap α) (k : String) (v : α) :
    getVal? (setVal m k v) k = some v := by
  induction m with
  | nil => simp [setVal, getVal?]
  | cons p rest ih =>
    by_cases h : p.1 = k
    · simp [setVal, getVal?, h]
    · simp [setVal, getVal?, h, ih]

theorem getVal?_setVal_ne {α : Type} (m : JsMap α) {k k' : String} (v : α)
    (h : k' ≠ k) : getVal? (setVal m k v) k' = getVal? m k' := by
  induction m with
  | nil =>
    simp [setVal, getVal?, Ne.symm h]
  | cons p rest ih =>
    by_cases hp : p.1 = k
    · have hp' : ¬ p.1 = k' := by rw [hp]; exact fun hh => h hh.symm
      rw [setVal, if_pos hp, getVal?, if_neg hp', getVal?, if_neg hp']
    · by_cases hp' : p.1 = k'
      · rw [setVal, if_neg hp, getVal?, if_pos hp', getVal?, if_pos hp']
      · rw [setVal, if_neg hp, getVal?, if_neg hp', getVal?, if_neg hp', ih]

theorem getVal?_eq_none_iff {α : Type} (m : JsMap α) (k : String) :
    getVal? m k = none ↔ k ∉ keys m := by
  induction m with
  | nil => simp [getVal?, keys]
  | cons p rest ih =>
    by_cases h : p.1 = k
    · simp [getVal?, keys, h]
    · have hk : ¬ k = p.1 := fun hh => h hh.symm
      rw [getVal?, if_neg h, ih]
      simp only [keys, List.map_cons, List.mem_cons, not_or]
      constructor
      · intro hnm; exact ⟨hk, hnm⟩
      · intro hnm; exact hnm.2

theorem mem_keys_setVal {α : Type} (m : JsMap α) (k k' : String) (v : α) :
    k' ∈ keys (setVal m k v) ↔ k' = k ∨ k' ∈ keys m := by
  induction m with
  | nil => simp [setVal, keys]
  | cons p rest ih =>
    by_cases h : p.1 = k
    · rw [setVal, if_pos h]
      simp only [keys, List.map_cons, List.mem_cons, h]
      tauto
    · rw [setVal, if_neg h]
      simp only [keys, List.map_cons, List.mem_cons]
      rw [keys] at ih
      rw [ih]
      tauto

theorem nodup_keys_setVal {α : Type} {m : JsMap α} (k : String) (v : α)
    (h : (keys m).Nodup) : (keys (setVal m k v)).Nodup := by
  induction m with
  | nil => simp [setVal, keys]
  | cons p rest ih =>
    rw [keys, List.map_cons, List.nodup_cons] at h
    by_cases hk : p.1 = k
    · rw [setVal, if_pos hk]
      rw [keys, List.map_cons, List.nodup_cons]
      exact h
    · rw [setVal, if_neg hk]
      rw [keys, List.map_cons, List.nodup_cons]
      refine ⟨?_, ih h.2⟩
      intro hmem
      rcases (mem_keys_setVal rest k p.1 v).mp hmem with h' | h'
      · exact hk h'
      · exact h.1 h'

theorem length_setVal {α : Type} (m : JsMap α) (k : String) (v : α) :
    (setVal m k v).length = if k ∈ keys m then m.length else m.length + 1 := by
  induction m with
  | nil => simp [setVal, keys]
  | cons p rest ih =>
    by_cases h : p.1 = k
    · rw [setVal, if_pos h]
      have : k ∈ keys (p :: rest) := by
        simp [keys, h.symm]
      rw [if_pos this]
      simp
    · rw [setVal, if_neg h]
      rw [List.length_cons, List.length_cons, ih]
      have hk : ¬ k = p.1 := fun hh => h hh.symm
      have hkeys : k ∈ keys (p :: rest) ↔ k ∈ keys rest := by
        simp [keys, hk]
      by_cases hm : k ∈ keys rest
      · rw [if_pos hm, if_pos (hkeys.mpr hm)]
      · rw [if_neg hm, if_neg (fun hh => hm (hkeys.mp hh))]

theorem getVal?_mem {α : Type} {m : JsMap α} {k : String} {v : α}
    (h : getVal? m k = some v) : (k, v) ∈ m := by
  induction m with
  | nil => simp [getVal?] at h
  | cons p rest ih =>
    by_cases hp : p.1 = k
    · rw [getVal?, if_pos hp] at h
      have hpv : p = (k, v) := by
        cases p with
        | mk a b =>
          simp only [Option.some.injEq] at h
          simp only at hp
          rw [hp, h]
      rw [hpv] at *
      exact List.mem_cons_self _ _
    · rw [getVal?, if_neg hp] at h
      exact List.mem_cons_of_mem _ (ih h)

theorem mem_getVal? {α : Type} {m : JsMap α} {k : String} {v : α}
    (hnd : (keys m).Nodup) (h : (k, v) ∈ m) : getVal? m k = some v := by
  induction m with
  | nil => simp at h
  | cons p rest ih =>
    rw [keys, List.map_cons, List.nodup_cons] at hnd
    rcases List.mem_cons.mp h with h' | h'
    · rw [← h', getVal?, if_pos rfl]
    · have hkp : ¬ p.1 = k := by
        intro hh
        exact hnd.1 (hh ▸ List.mem_map.mpr ⟨(k, v), h', by simp [hh]⟩)
      rw [getVal?, if_neg hkp]
      exact ih hnd.2 h'

end JsMap

/-! ## URL normalization (`ExplorationCoordinator.normalizeUrl`)

The source calls the WHATWG `URL` API:
```
const u = new URL(url);        // throws on relative URLs
u.hash = '';
u.pathname = u.pathname.replace(/\/+$/, '') || '/';
u.searchParams.sort();         // stable sort by parameter name
return u.toString();
// catch: return url unchanged
```
The embedding models the `URL` parser for scheme://host URLs: scheme up to the
first `:`, a mandatory `//`, host up to the first `/`, then path, `?query`
(split on `&`, each chunk split at the first `=`), and `#fragment`.  Inputs
without a `:` followed by `//` fail to parse, exactly as `new URL` throws on
them.  Host case-folding, default ports and percent-encoding are not modelled:
no claim depends on them. -/

structure UrlParts where
  scheme : List Char
  host : List Char
  path : List Char
  query : List (List Char × List Char)
  fragment : Option (List Char)
deriving DecidableEq, Repr

namespace Url

/-- One `k=v` chunk of a query string (`k` alone parses as `(k, "")`). -/
def parseQueryChunk (chunk : List Char) : List Char × List Char :=
  match splitFirst '=' chunk with
  | (k, some v) => (k, v)
  | (k, none) => (k, [])

/-- Parse the query-string part, skipping empty chunks as `URLSearchParams`
does. -/
def parseQueryStr : Option (List Char) → List (List Char × List Char)
  | none => []
  | some qs => ((splitSep '&' qs).filter (fun ch => !ch.isEmpty)).map parseQueryChunk

/-- Model of the WHATWG `new URL` parser for authority-based URLs: everything
after the first `#` is the fragment, everything after the first `?` before that
is the query, then `scheme://host/path`. -/
def parseUrl (s : List Char) : Option UrlParts :=
  match splitFirst ':' (splitFirst '?' (splitFirst '#' s).1).1 with
  | (_, none) => none
  | (scheme, some rest) =>
    if scheme.isEmpty then none
    else
      match rest with
      | '/' :: '/' :: rest2 =>
        some { scheme := scheme,
               host := (splitFirst '/' rest2).1,
               path := (match (splitFirst '/' rest2).2 with
                        | none => ['/']
                        | some p => '/' :: p),
               query := parseQueryStr (splitFirst '?' (splitFirst '#' s).1).2,
               fragment := (splitFirst '#' s).2 }
      | _ => none

/-- Serialize the query back (`URLSearchParams` serializer: `k=v` joined by
`&`, a leading `?` only when parameters exist). -/
def serializeQuery : List (List Char × List Char) → List Char
  | [] => []
  | qs => '?' :: joinSep '&' (qs.map fun p => p.1 ++ '=' :: p.2)

def serializeFrag : Option (List Char) → List Char
  | none => []
  | some f => '#' :: f

/-- Model of `URL.prototype.toString`. -/
def serializeUrl (u : UrlParts) : List Char :=
  (u.scheme ++ ':' :: '/' :: '/' :: (u.host ++ u.path)) ++ serializeQuery u.query
    ++ serializeFrag u.fragment

/-- Model of `u.pathname.replace(/\/+$/, '') || '/'`. -/
def stripTrailingSlashes (p : List Char) : List Char :=
  let r := (p.reverse.dropWhile (fun c => c = '/')).reverse
  if r.isEmpty then ['/'] else r

/-- Comparator used by `URLSearchParams.sort`: by parameter name only. -/
def paramLe (p q : List Char × List Char) : Bool := lexLe p.1 q.1

def sortParams : List (List Char × List Char) → List (List Char × List Char) :=
  sortByLe paramLe

/-- The three mutations `normalizeUrl` performs on a parsed URL. -/
def normalizeParts (u : UrlParts) : UrlParts :=
  { u with path := stripTrailingSlashes u.path,
           query := sortParams u.query,
           fragment := none }

end Url

/-- `ExplorationCoordinator.normalizeUrl`: parse, drop the fragment, strip
trailing slashes from the path, sort the query parameters, re-serialize;
return the input unchanged when parsing throws. -/
def normalizeUrl (s : String) : String :=
  match Url.parseUrl s.data with
  | none => s
  | some u => String.mk (Url.serializeUrl (Url.normalizeParts u))

namespace Url

/-- Well-formedness of URL parts, as established by a successful parse. -/
def WF (u : UrlParts) : Prop :=
  u.scheme ≠ [] ∧ ':' ∉ u.scheme ∧ '?' ∉ u.scheme ∧ '#' ∉ u.scheme ∧
  '/' ∉ u.host ∧ '?' ∉ u.host ∧ '#' ∉ u.host ∧
  (∃ t, u.path = '/' :: t) ∧ '?' ∉ u.path ∧ '#' ∉ u.path ∧
  (∀ p ∈ u.query, '=' ∉ p.1 ∧ '&' ∉ p.1 ∧ '#' ∉ p.1 ∧ '&' ∉ p.2 ∧ '#' ∉ p.2)

theorem mem_joinSep {c : Char} {chunks : List (List Char)} {x : Char}
    (h : x ∈ joinSep c chunks) : x = c ∨ ∃ ch ∈ chunks, x ∈ ch := by
  induction chunks with
  | nil => simp [joinSep] at h
  | cons a t ih =>
    cases t with
    | nil =>
      rw [joinSep] at h
      exact Or.inr ⟨a, by simp, h⟩
    | cons b t' =>
      rw [joinSep] at h
      · rcases List.mem_append.mp h with h' | h'
        · exact Or.inr ⟨a, by simp, h'⟩
        · rcases List.mem_cons.mp h' with h'' | h''
          · exact Or.inl h''
          · rcases ih h'' with h₃ | ⟨ch, hch, hx⟩
            · exact Or.inl h₃
            · exact Or.inr ⟨ch, by simp [hch], hx⟩
      · simp

theorem mem_serializeQuery {qs : List (List Char × List Char)} {x : Char}
    (h : x ∈ serializeQuery qs) :
    x = '?' ∨ x = '&' ∨ x = '=' ∨ ∃ p ∈ qs, x ∈ p.1 ∨ x ∈ p.2 := by
  cases qs with
  | nil => simp [serializeQuery] at h
  | cons q qs' =>
    have hSQ : serializeQuery (q :: qs')
        = '?' :: joinSep '&' ((q :: qs').map fun p => p.1 ++ '=' :: p.2) := by
      rw [serializeQuery]
      simp
    rw [hSQ] at h
    rcases List.mem_cons.mp h with h' | h'
    · exact Or.inl h'
    · rcases mem_joinSep h' with h'' | ⟨ch, hch, hx⟩
      · exact Or.inr (Or.inl h'')
      · rcases List.mem_map.mp hch with ⟨p, hp, hpch⟩
        rw [← hpch] at hx
        rcases List.mem_append.mp hx with h₃ | h₃
        · exact Or.inr (Or.inr (Or.inr ⟨p, hp, Or.inl h₃⟩))
        · rcases List.mem_cons.mp h₃ with h₄ | h₄
          · exact Or.inr (Or.inr (Or.inl h₄))
          · exact Or.inr (Or.inr (Or.inr ⟨p, hp, Or.inr h₄⟩))

theorem parseQueryChunk_roundtrip {p : List Char × List Char} (h : '=' ∉ p.1) :
    parseQueryChunk (p.1 ++ '=' :: p.2) = p := by
  rw [parseQueryChunk, splitFirst_append h]

theorem parseQueryStr_roundtrip {qs : List (List Char × List Char)}
    (hq : ∀ p ∈ qs, '=' ∉ p.1 ∧ '&' ∉ p.1 ∧ '&' ∉ p.2) :
    parseQueryStr (some (joinSep '&' (qs.map fun p => p.1 ++ '=' :: p.2))) = qs := by
  by_cases hne : qs = []
  · subst hne
    rfl
  · have hchne : qs.map (fun p => p.1 ++ '=' :: p.2) ≠ [] := by
      simpa using hne
    have hch : ∀ ch ∈ qs.map (fun p => p.1 ++ '=' :: p.2), '&' ∉ ch := by
      intro ch hch
      rcases List.mem_map.mp hch with ⟨p, hp, hpch⟩
      rw [← hpch]
      intro hx
      rcases List.mem_append.mp hx with h | h
      · exact (hq p hp).2.1 h
      · rcases List.mem_cons.mp h with h | h
        · exact absurd h (by decide)
        · exact (hq p hp).2.2 h
    rw [parseQueryStr, splitSep_joinSep hchne hch]
    have hfilter : (qs.map (fun p => p.1 ++ '=' :: p.2)).filter
        (fun ch => !ch.isEmpty) = qs.map (fun p => p.1 ++ '=' :: p.2) := by
      apply List.filter_eq_self.mpr
      intro ch hchm
      rcases List.mem_map.mp hchm with ⟨p, _, hpch⟩
      rw [← hpch]
      cases hp1 : p.1 with
      | nil => simp
      | cons a t => simp
    rw [hfilter, List.map_map]
    have hcongr : ∀ p ∈ qs, (parseQueryChunk ∘ fun p => p.1 ++ '=' :: p.2) p = id p := by
      intro p hp
      exact parseQueryChunk_roundtrip (hq p hp).1
    rw [List.map_congr_left hcongr, List.map_id]

theorem parse_serialize {u : UrlParts} (hwf : WF u) (hf : u.fragment = none) :
    parseUrl (serializeUrl u) = some u := by
  obtain ⟨hs0, hs1, hs2, hs3, hh1, hh2, hh3, ⟨pt, hpt⟩, hp1, hp2, hq⟩ := hwf
  have hnoq : '?' ∉ u.scheme ++ ':' :: '/' :: '/' :: (u.host ++ u.path) := by
    intro hx
    rcases List.mem_append.mp hx with h | h
    · exact hs2 h
    · rcases List.mem_cons.mp h with h | h
      · exact absurd h (by decide)
      · rcases List.mem_cons.mp h with h | h
        · exact absurd h (by decide)
        · rcases List.mem_cons.mp h with h | h
          · exact absurd h (by decide)
          · rcases List.mem_append.mp h with h | h
            · exact hh2 h
            · exact hp1 h
  have hnoh : '#' ∉ u.scheme ++ ':' :: '/' :: '/' :: (u.host ++ u.path) := by
    intro hx
    rcases List.mem_append.mp hx with h | h
    · exact hs3 h
    · rcases List.mem_cons.mp h with h | h
      · exact absurd h (by decide)
      · rcases List.mem_cons.mp h with h | h
        · exact absurd h (by decide)
        · rcases List.mem_cons.mp h with h | h
          · exact absurd h (by decide)
          · rcases List.mem_append.mp h with h | h
            · exact hh3 h
            · exact hp2 h
  have hser : serializeUrl u
      = (u.scheme ++ ':' :: '/' :: '/' :: (u.host ++ u.path)) ++ serializeQuery u.query := by
    rw [serializeUrl, hf, serializeFrag, List.append_nil]
  have hnohq : '#' ∉ serializeUrl u := by
    rw [hser]
    intro hx
    rcases List.mem_append.mp hx with h | h
    · exact hnoh h
    · rcases mem_serializeQuery h with h | h | h | ⟨p, hp, h⟩
      · exact absurd h (by decide)
      · exact absurd h (by decide)
      · exact absurd h (by decide)
      · rcases h with h | h
        · exact (hq p hp).2.2.1 h
        · exact (hq p hp).2.2.2.2 h
  have hsplit1 : splitFirst '#' (serializeUrl u) = (serializeUrl u, none) :=
    splitFirst_not_mem hnohq
  have hsplit3 : splitFirst ':' (u.scheme ++ ':' :: '/' :: '/' :: (u.host ++ u.path))
      = (u.scheme, some ('/' :: '/' :: (u.host ++ u.path))) :=
    splitFirst_append hs1
  have hsplit4 : splitFirst '/' (u.host ++ u.path) = (u.host, some pt) := by
    rw [hpt]
    exact splitFirst_append hh1
  have hisEmpty : u.scheme.isEmpty = false := by
    cases hsc : u.scheme with
    | nil => exact absurd hsc hs0
    | cons a t => rfl
  cases hqs : u.query with
  | nil =>
    have hser0 : serializeUrl u
        = u.scheme ++ ':' :: '/' :: '/' :: (u.host ++ u.path) := by
      rw [hser, hqs, serializeQuery, List.append_nil]
    have hsplit2 : splitFirst '?' (serializeUrl u) = (serializeUrl u, none) := by
      rw [hser0]; exact splitFirst_not_mem hnoq
    rw [parseUrl, hsplit1]
    simp only
    rw [hsplit2]
    simp only
    rw [hser0, hsplit3]
    simp only [hisEmpty, Bool.false_eq_true, if_false]
    rw [hsplit4]
    simp only [parseQueryStr]
    rw [← hpt, ← hqs, ← hf]
  | cons q qs' =>
    have hSQ : serializeQuery u.query
        = '?' :: joinSep '&' (u.query.map fun p => p.1 ++ '=' :: p.2) := by
      rw [hqs, serializeQuery]
      rw [← hqs]
      simp [hqs]
    have hser1 : serializeUrl u
        = (u.scheme ++ ':' :: '/' :: '/' :: (u.host ++ u.path))
          ++ '?' :: joinSep '&' (u.query.map fun p => p.1 ++ '=' :: p.2) := by
      rw [hser, hSQ]
    have hsplit2 : splitFirst '?' (serializeUrl u)
        = (u.scheme ++ ':' :: '/' :: '/' :: (u.host ++ u.path),
           some (joinSep '&' (u.query.map fun p => p.1 ++ '=' :: p.2))) := by
      rw [hser1]
      exact splitFirst_append hnoq
    rw [parseUrl, hsplit1]
    simp only
    rw [hsplit2]
    simp only
    rw [hsplit3]
    simp only [hisEmpty, Bool.false_eq_true, if_false]
    rw [hsplit4]
    simp only
    rw [parseQueryStr_roundtrip (fun p hp => ⟨(hq p hp).1, (hq p hp).2.1, (hq p hp).2.2.2.1⟩)]
    rw [← hpt, ← hf]

end Url

theorem splitFirst_fst_not_mem (c : Char) (l : List Char) :
    c ∉ (splitFirst c l).1 := by
  induction l with
  | nil => simp [splitFirst]
  | cons x xs ih =>
    by_cases h : x = c
    · simp [splitFirst, h]
    · simp only [splitFirst, h, if_false]
      intro hmem
      rcases List.mem_cons.mp hmem with h' | h'
      · exact h h'.symm
      · exact ih h'

theorem splitFirst_fst_subset {c : Char} {l : List Char} :
    ∀ x ∈ (splitFirst c l).1, x ∈ l := by
  induction l with
  | nil => simp [splitFirst]
  | cons y ys ih =>
    by_cases h : y = c
    · simp [splitFirst, h]
    · simp only [splitFirst, h, if_false]
      intro x hx
      rcases List.mem_cons.mp hx with h' | h'
      · simp [h']
      · exact List.mem_cons_of_mem _ (ih x h')

theorem splitFirst_snd_subset {c : Char} {l r : List Char}
    (h : (splitFirst c l).2 = some r) : ∀ x ∈ r, x ∈ l := by
  induction l generalizing r with
  | nil => simp [splitFirst] at h
  | cons y ys ih =>
    by_cases hy : y = c
    · subst hy
      rw [splitFirst, if_pos rfl] at h
      have h' : ys = r := Option.some.inj h
      intro x hx
      exact List.mem_cons_of_mem _ (h' ▸ hx)
    · rw [splitFirst, if_neg hy] at h
      intro x hx
      exact List.mem_cons_of_mem _ (ih h x hx)

theorem splitSep_chunk_not_mem (c : Char) (l : List Char) :
    ∀ ch ∈ splitSep c l, c ∉ ch := by
  induction l with
  | nil =>
    intro ch hch
    simp [splitSep] at hch
    simp [hch]
  | cons x xs ih =>
    intro ch hch
    by_cases h : x = c
    · rw [splitSep, if_pos h] at hch
      rcases List.mem_cons.mp hch with h' | h'
      · simp [h']
      · exact ih ch h'
    · rw [splitSep, if_neg h] at hch
      rcases hs : splitSep c xs with _ | ⟨hd, tl⟩
      · exact absurd hs (splitSep_ne_nil c xs)
      · rw [hs] at hch
        rcases List.mem_cons.mp hch with h' | h'
        · rw [h']
          intro hmem
          rcases List.mem_cons.mp hmem with h'' | h''
          · exact h h''.symm
          · exact ih hd (by rw [hs]; simp) h''
        · exact ih ch (by rw [hs]; simp [h'])

theorem splitSep_chunk_subset (c : Char) (l : List Char) :
    ∀ ch ∈ splitSep c l, ∀ x ∈ ch, x ∈ l := by
  induction l with
  | nil =>
    intro ch hch
    simp [splitSep] at hch
    simp [hch]
  | cons y ys ih =>
    intro ch hch x hx
    by_cases h : y = c
    · rw [splitSep, if_pos h] at hch
      rcases List.mem_cons.mp hch with h' | h'
      · rw [h'] at hx; simp at hx
      · exact List.mem_cons_of_mem _ (ih ch h' x hx)
    · rw [splitSep, if_neg h] at hch
      rcases hs : splitSep c ys with _ | ⟨hd, tl⟩
      · exact absurd hs (splitSep_ne_nil c ys)
      · rw [hs] at hch
        rcases List.mem_cons.mp hch with h' | h'
        · rw [h'] at hx
          rcases List.mem_cons.mp hx with h'' | h''
          · simp [h'']
          · exact List.mem_cons_of_mem _ (ih hd (by rw [hs]; simp) x h'')
        · exact List.mem_cons_of_mem _ (ih ch (by rw [hs]; simp [h']) x hx)

namespace Url

theorem parse_wf {s : List Char} {u : UrlParts} (h : parseUrl s = some u) :
    WF u := by
  rw [parseUrl] at h
  split at h
  · exact absurd h (by simp)
  next scheme rest heq =>
    split at h
    · exact absurd h (by simp)
    next hsch =>
      split at h
      next c1 c2 rest2 =>
        rw [Option.some.injEq] at h
        subst h
        -- provenance of the pieces
        have hscheme : scheme = (splitFirst ':' (splitFirst '?' (splitFirst '#' s).1).1).1 := by
          rw [heq]
        have hrest : (splitFirst ':' (splitFirst '?' (splitFirst '#' s).1).1).2
            = some ('/' :: '/' :: rest2) := by
          rw [heq]
        have hq1 : '?' ∉ (splitFirst '?' (splitFirst '#' s).1).1 :=
          splitFirst_fst_not_mem _ _
        have hh1 : '#' ∉ (splitFirst '#' s).1 :=
          splitFirst_fst_not_mem _ _
        have hsub1 : ∀ x ∈ (splitFirst '?' (splitFirst '#' s).1).1,
            x ∈ (splitFirst '#' s).1 := fun x hx => splitFirst_fst_subset x hx
        have hschSub : ∀ x ∈ scheme, x ∈ (splitFirst '?' (splitFirst '#' s).1).1 := by
          rw [hscheme]; exact fun x hx => splitFirst_fst_subset x hx
        have hrestSub : ∀ x ∈ rest2, x ∈ (splitFirst '?' (splitFirst '#' s).1).1 := by
          intro x hx
          exact splitFirst_snd_subset hrest x (by simp [hx])
        rw [WF]
        dsimp only
        refine ⟨?_, ?_, ?_, ?_, ?_, ?_, ?_, ?_, ?_, ?_, ?_⟩
        · intro hempty
          rw [hempty] at hsch
          exact hsch rfl
        · rw [hscheme]; exact splitFirst_fst_not_mem _ _
        · intro hx; exact hq1 (hschSub _ hx)
        · intro hx; exact hh1 (hsub1 _ (hschSub _ hx))
        · exact splitFirst_fst_not_mem _ _
        · intro hx
          exact hq1 (hrestSub _ (splitFirst_fst_subset _ hx))
        · intro hx
          exact hh1 (hsub1 _ (hrestSub _ (splitFirst_fst_subset _ hx)))
        · cases hsp : (splitFirst '/' rest2).2 with
          | none => exact ⟨[], by simp [hsp]⟩
          | some p => exact ⟨p, by simp [hsp]⟩
        · cases hsp : (splitFirst '/' rest2).2 with
          | none => simp [hsp]
          | some p =>
            simp only [hsp]
            intro hx
            rcases List.mem_cons.mp hx with h' | h'
            · exact absurd h' (by decide)
            · exact hq1 (hrestSub _ (splitFirst_snd_subset hsp _ h'))
        · cases hsp : (splitFirst '/' rest2).2 with
          | none => simp [hsp]
          | some p =>
            simp only [hsp]
            intro hx
            rcases List.mem_cons.mp hx with h' | h'
            · exact absurd h' (by decide)
            · exact hh1 (hsub1 _ (hrestSub _ (splitFirst_snd_subset hsp _ h')))
        · intro p hp
          cases hq2 : (splitFirst '?' (splitFirst '#' s).1).2 with
          | none => rw [hq2] at hp; simp [parseQueryStr] at hp
          | some qstr =>
            rw [hq2] at hp
            rw [parseQueryStr] at hp
            rcases List.mem_map.mp hp with ⟨ch, hch, hpch⟩
            have hchm : ch ∈ splitSep '&' qstr := List.mem_of_mem_filter hch
            have hamp : '&' ∉ ch := splitSep_chunk_not_mem '&' qstr ch hchm
            have hchsub : ∀ x ∈ ch, x ∈ qstr :=
              splitSep_chunk_subset '&' qstr ch hchm
            have hqsub : ∀ x ∈ qstr, x ∈ (splitFirst '#' s).1 :=
              splitFirst_snd_subset hq2
            have hp1 : p.1 = (splitFirst '=' ch).1 := by
              rw [← hpch, parseQueryChunk]
              cases hsp : splitFirst '=' ch with
              | mk k ov =>
                cases ov with
                | none => simp
                | some v => simp
            have hp2sub : ∀ x ∈ p.2, x ∈ ch := by
              rw [← hpch, parseQueryChunk]
              cases hsp : splitFirst '=' ch with
              | mk k ov =>
                cases ov with
                | none => simp
                | some v =>
                  simp only
                  intro x hx
                  exact splitFirst_snd_subset (by rw [hsp]) x hx
            refine ⟨?_, ?_, ?_, ?_, ?_⟩
            · rw [hp1]; exact splitFirst_fst_not_mem _ _
            · rw [hp1]
              intro hx
              exact hamp (splitFirst_fst_subset _ hx)
            · rw [hp1]
              intro hx
              exact hh1 (hqsub _ (hchsub _ (splitFirst_fst_subset _ hx)))
            · intro hx
              exact hamp (hp2sub _ hx)
            · intro hx
              exact hh1 (hqsub _ (hchsub _ (hp2sub _ hx)))
      next hne =>
        exact absurd h (by simp)

end Url

namespace Url

theorem stripTrailingSlashes_isPre (p : List Char) :
    List.IsPrefix ((p.reverse.dropWhile (fun c => c = '/')).reverse) p := by
  rcases List.dropWhile_suffix (l := p.reverse) (p := fun c => c = '/') with ⟨t, ht⟩
  refine ⟨t.reverse, ?_⟩
  have := congrArg List.reverse ht
  rwa [List.reverse_append, List.reverse_reverse] at this

theorem stripTrailingSlashes_shape {p t : List Char} (h : p = '/' :: t) :
    ∃ t', stripTrailingSlashes p = '/' :: t' := by
  cases hr : (p.reverse.dropWhile (fun c => c = '/')).reverse with
  | nil => exact ⟨[], by simp [stripTrailingSlashes, hr]⟩
  | cons a r' =>
    have hpre := stripTrailingSlashes_isPre p
    rw [hr, h] at hpre
    rcases hpre with ⟨s, hs⟩
    rw [List.cons_append] at hs
    have ha : a = '/' := (List.cons.inj hs).1
    exact ⟨r', by simp [stripTrailingSlashes, hr, ha]⟩

theorem stripTrailingSlashes_subset {p : List Char} :
    ∀ x ∈ stripTrailingSlashes p, x ∈ p ∨ x = '/' := by
  intro x hx
  cases hr : (p.reverse.dropWhile (fun c => c = '/')).reverse with
  | nil =>
    rw [stripTrailingSlashes] at hx
    simp only [hr] at hx
    simp at hx
    exact Or.inr hx
  | cons a r' =>
    rw [stripTrailingSlashes] at hx
    simp only [hr] at hx
    have hx' : x ∈ a :: r' := by simpa using hx
    exact Or.inl ((stripTrailingSlashes_isPre p).subset (hr ▸ hx'))

theorem dropWhile_head_not {q : Char → Bool} {l t : List Char} {c : Char}
    (h : l.dropWhile q = c :: t) : q c = false := by
  induction l with
  | nil => simp [List.dropWhile] at h
  | cons x xs ih =>
    rw [List.dropWhile_cons] at h
    cases hqx : q x with
    | true =>
      rw [hqx] at h
      simp at h
      exact ih h
    | false =>
      rw [hqx] at h
      simp at h
      rw [← h.1]
      exact hqx

theorem stripTrailingSlashes_idem (p : List Char) :
    stripTrailingSlashes (stripTrailingSlashes p) = stripTrailingSlashes p := by
  cases hr : (p.reverse.dropWhile (fun c => c = '/')).reverse with
  | nil =>
    have h1 : stripTrailingSlashes p = ['/'] := by
      simp [stripTrailingSlashes, hr]
    rw [h1]
    rfl
  | cons a r' =>
    have h1 : stripTrailingSlashes p = a :: r' := by
      simp [stripTrailingSlashes, hr]
    have hd : p.reverse.dropWhile (fun c => c = '/') = (a :: r').reverse := by
      have := congrArg List.reverse hr
      rwa [List.reverse_reverse] at this
    have hstep : (a :: r').reverse.dropWhile (fun c => c = '/') = (a :: r').reverse := by
      cases hc : (a :: r').reverse with
      | nil => simp at hc
      | cons c ct =>
        rw [hc] at hd
        have hqc : (decide (c = '/')) = false := dropWhile_head_not hd
        simp [List.dropWhile_cons, hqc]
    rw [h1, stripTrailingSlashes]
    simp only [hstep, List.reverse_reverse]
    simp

end Url

namespace Url

theorem paramLe_total (x y : List Char × List Char) :
    paramLe x y = true ∨ paramLe y x = true := lexLe_total x.1 y.1

theorem paramLe_trans (x y z : List Char × List Char) (hxy : paramLe x y = true)
    (hyz : paramLe y z = true) : paramLe x z = true := lexLe_trans hxy hyz

theorem sortParams_idem (q : List (List Char × List Char)) :
    sortParams (sortParams q) = sortParams q :=
  sortByLe_idem paramLe_total paramLe_trans q

theorem mem_sortParams {q : List (List Char × List Char)} {p : List Char × List Char} :
    p ∈ sortParams q ↔ p ∈ q :=
  (sortByLe_perm paramLe q).mem_iff

theorem wf_normalizeParts {u : UrlParts} (h : WF u) : WF (normalizeParts u) := by
  obtain ⟨hs0, hs1, hs2, hs3, hh1, hh2, hh3, ⟨pt, hpt⟩, hp1, hp2, hq⟩ := h
  refine ⟨hs0, hs1, hs2, hs3, hh1, hh2, hh3, ?_, ?_, ?_, ?_⟩
  · exact stripTrailingSlashes_shape hpt
  · intro hx
    rcases stripTrailingSlashes_subset _ hx with h' | h'
    · exact hp1 h'
    · exact absurd h' (by decide)
  · intro hx
    rcases stripTrailingSlashes_subset _ hx with h' | h'
    · exact hp2 h'
    · exact absurd h' (by decide)
  · intro p hp
    exact hq p (mem_sortParams.mp hp)

theorem normalizeParts_idem (u : UrlParts) :
    normalizeParts (normalizeParts u) = normalizeParts u := by
  rw [normalizeParts, normalizeParts]
  simp only [stripTrailingSlashes_idem, sortParams_idem]

theorem normalizeParts_fragment (u : UrlParts) :
    (normalizeParts u).fragment = none := rfl

theorem sortParams_perm_eq {q1 q2 : List (List Char × List Char)}
    (hperm : List.Perm q1 q2) (hnd : (q1.map Prod.fst).Nodup) :
    sortParams q1 = sortParams q2 := by
  apply eq_of_perm_of_pairwise Prod.fst lexLe
    (fun x y hx hy => lexLe_antisymm hx hy)
  · exact (sortByLe_perm paramLe q1).trans (hperm.trans (sortByLe_perm paramLe q2).symm)
  · exact (((sortByLe_perm paramLe q1).map Prod.fst).nodup_iff).mpr hnd
  · exact sortByLe_pairwise paramLe_total paramLe_trans q1
  · exact sortByLe_pairwise paramLe_total paramLe_trans q2

/-- Query-parameter order independence of normalization, at the level of parsed
URL parts: permuting the query parameters of a URL (with pairwise-distinct
parameter names) does not change the normalized form, nor does the fragment. -/
theorem normalizeParts_query_order_independent
    (sch hst pth : List Char) (q1 q2 : List (List Char × List Char))
    (f1 f2 : Option (List Char))
    (hperm : List.Perm q1 q2) (hnd : (q1.map Prod.fst).Nodup) :
    normalizeParts ⟨sch, hst, pth, q1, f1⟩ = normalizeParts ⟨sch, hst, pth, q2, f2⟩ := by
  rw [normalizeParts, normalizeParts]
  simp only [sortParams_perm_eq hperm hnd]

end Url

/-- Idempotence of `normalizeUrl` on every input string: parse failures return
the input unchanged, and a normalized absolute URL re-parses to the same parts
and re-normalizes to itself. -/
theorem normalizeUrl_idem (s : String) : normalizeUrl (normalizeUrl s) = normalizeUrl s := by
  cases hp : Url.parseUrl s.data with
  | none =>
    have h1 : normalizeUrl s = s := by rw [normalizeUrl, hp]
    rw [h1, h1]
  | some u =>
    have h1 : normalizeUrl s = String.mk (Url.serializeUrl (Url.normalizeParts u)) := by
      rw [normalizeUrl, hp]
    have hwfn : Url.WF (Url.normalizeParts u) := Url.wf_normalizeParts (Url.parse_wf hp)
    have hps : Url.parseUrl (String.mk (Url.serializeUrl (Url.normalizeParts u))).data
        = some (Url.normalizeParts u) :=
      Url.parse_serialize hwfn (Url.normalizeParts_fragment u)
    rw [h1, normalizeUrl, hps]
    simp only [Url.normalizeParts_idem]

/-! ## Exploration data model (src/types.ts) -/

structure FormField where
  name : String
  type : String
  required : Bool
  label : Option String
deriving DecidableEq, Repr

structure FormInfo where
  action : String
  method : String
  fields : List FormField
deriving DecidableEq, Repr

structure LinkInfo where
  href : String
  text : String
  isInternal : Bool
deriving DecidableEq, Repr

structure DiscoveredPageDetail where
  url : String
  title : String
  depth : Nat
  elements : Nat
  forms : List FormInfo
  links : List LinkInfo
  interactiveElements : List String
deriving DecidableEq, Repr

structure WorkflowStep where
  url : String
  action : String
deriving DecidableEq, Repr

structure DiscoveredWorkflow where
  name : String
  steps : List WorkflowStep
deriving DecidableEq, Repr

/-- `auth` is omitted: authentication happens inside the per-target crawl,
which the exploration model abstracts into an outcome oracle. -/
structure ExplorationTarget where
  url : String
  label : Option String := none
  maxDepth : Option Nat := none
  maxPages : Option Nat := none
deriving DecidableEq, Repr

/-- The source literal states are `'completed' | 'failed' | 'partial'`;
`partialCrawl` stands for `'partial'`. -/
inductive ExplorationStatus where
  | completed
  | partialCrawl
  | failed
deriving DecidableEq, Repr

structure ExplorationResult where
  explorationId : String
  target : ExplorationTarget
  sessionId : String
  status : ExplorationStatus
  error : Option String
  pages : List DiscoveredPageDetail
  workflows : List DiscoveredWorkflow
deriving DecidableEq, Repr

structure SiteMapEntry where
  url : String
  title : String
  depth : Nat
  discoveredBy : List String
  forms : Nat
  links : Nat
  interactiveElements : Nat
deriving DecidableEq, Repr

structure ExplorationMergeResult where
  explorationIds : List String
  totalPages : Nat
  uniquePages : Nat
  duplicatesRemoved : Nat
  siteMap : List SiteMapEntry
  allForms : List FormInfo
  allWorkflows : List DiscoveredWorkflow
deriving DecidableEq, Repr

structure ExplorationDiffChange where
  url : String
  elementDiff : Int
deriving DecidableEq, Repr

structure ExplorationDiffResult where
  added : List String
  removed : List String
  changed : List ExplorationDiffChange
deriving DecidableEq, Repr

/-! ## ExplorationCoordinator.merge -/

namespace Coordinator

/-- One iteration of the inner page loop of `merge`: bump `totalPages`, update
or insert the site-map entry under the page's normalized URL, collect forms. -/
def mergePage (expId : String) (acc : JsMap SiteMapEntry × List FormInfo × Nat)
    (page : DiscoveredPageDetail) : JsMap SiteMapEntry × List FormInfo × Nat :=
  let urlMap := acc.1
  let allForms := acc.2.1
  let totalPages := acc.2.2 + 1
  let normalized := normalizeUrl page.url
  let urlMap' :=
    match urlMap.getVal? normalized with
    | some existing =>
      urlMap.setVal normalized
        { existing with discoveredBy := existing.discoveredBy ++ [expId] }
    | none =>
      urlMap.setVal normalized
        { url := page.url, title := page.title, depth := page.depth,
          discoveredBy := [expId], forms := page.forms.length,
          links := page.links.length, interactiveElements := page.elements }
  (urlMap', allForms ++ page.forms, totalPages)

/-- One iteration of the outer exploration loop of `merge`. -/
def mergeExploration (acc : JsMap SiteMapEntry × List FormInfo × Nat × List DiscoveredWorkflow)
    (e : ExplorationResult) :
    JsMap SiteMapEntry × List FormInfo × Nat × List DiscoveredWorkflow :=
  let r := e.pages.foldl (mergePage e.explorationId) (acc.1, acc.2.1, acc.2.2.1)
  (r.1, r.2.1, r.2.2, acc.2.2.2 ++ e.workflows)

/-- `ExplorationCoordinator.merge`: look up the given ids, drop unknown ones,
throw only when none resolve, then aggregate pages by normalized URL. -/
def merge (results : JsMap ExplorationResult) (explorationIds : List String) :
    Except String ExplorationMergeResult :=
  let explorations := explorationIds.filterMap (fun id => results.getVal? id)
  if explorations.isEmpty then
    Except.error "No explorations found for the given IDs"
  else
    let acc := explorations.foldl mergeExploration ([], [], 0, [])
    Except.ok
      { explorationIds := explorationIds,
        totalPages := acc.2.2.1,
        uniquePages := acc.1.length,
        duplicatesRemoved := acc.2.2.1 - acc.1.length,
        siteMap := acc.1.map Prod.snd,
        allForms := acc.2.1,
        allWorkflows := acc.2.2.2 }

/-! ## ExplorationCoordinator.diff -/

/-- `new Map(pages.map(p => [normalizeUrl(p.url), p]))`. -/
def pagesToMap (pages : List DiscoveredPageDetail) : JsMap DiscoveredPageDetail :=
  pages.foldl (fun m p => m.setVal (normalizeUrl p.url) p) []

/-- The loop over the `current` map: pages absent from `baseline` are added,
pages present with a different element count are changed. -/
def diffScanCurrent (baselineUrls : JsMap DiscoveredPageDetail) :
    List (String × DiscoveredPageDetail) → List String × List ExplorationDiffChange
  | [] => ([], [])
  | (url, page) :: rest =>
    let r := diffScanCurrent baselineUrls rest
    match baselineUrls.getVal? url with
    | none => (page.url :: r.1, r.2)
    | some baselinePage =>
      if baselinePage.elements ≠ page.elements then
        (r.1, { url := page.url,
                elementDiff := (page.elements : Int) - (baselinePage.elements : Int) } :: r.2)
      else r

/-- The loop over the `baseline` map: pages absent from `current` are removed. -/
def diffScanBaseline (currentUrls : JsMap DiscoveredPageDetail) :
    List (String × DiscoveredPageDetail) → List String
  | [] => []
  | (url, page) :: rest =>
    if (currentUrls.getVal? url).isSome then diffScanBaseline currentUrls rest
    else page.url :: diffScanBaseline currentUrls rest

/-- `ExplorationCoordinator.diff`. -/
def diff (results : JsMap ExplorationResult) (baselineId currentId : String) :
    Except String ExplorationDiffResult :=
  match results.getVal? baselineId with
  | none => Except.error ("Baseline exploration not found: " ++ baselineId)
  | some baseline =>
    match results.getVal? currentId with
    | none => Except.error ("Current exploration not found: " ++ currentId)
    | some current =>
      let baselineUrls := pagesToMap baseline.pages
      let currentUrls := pagesToMap current.pages
      let ac := diffScanCurrent baselineUrls currentUrls
      let removed := diffScanBaseline currentUrls baselineUrls
      Except.ok { added := ac.1, removed := removed, changed := ac.2 }

/-- `ExplorationCoordinator.getResult`. -/
def getResult (results : JsMap ExplorationResult) (explorationId : String) :
    Option ExplorationResult :=
  results.getVal? explorationId

/-! ## ExplorationCoordinator.explore

Per-target remote work (session creation, authentication, the crawl) is
abstracted into an outcome oracle.  `createFail` models a rejection of
`pool.createSession` — thrown *outside* the per-target `try`, so the task
promise rejects and `Promise.allSettled` maps it to a placeholder result
(`explorationId: 'exp-error'`, `target: { url: '' }`) that is returned but
never stored.  `crawlThrow` models `exploreTarget` throwing after the session
was created: the `catch` stores a `failed` result under the real exploration
id.  `crawlOk` models a crawl that returned `pages`/`workflows`; `exploreTarget`
derives the status from whether any page was captured.

The JS tasks run concurrently, but each one touches only its own store key and
the counter increments happen synchronously in submission order, so the
sequential model returns the same results and the same store contents. -/

inductive TargetOutcome where
  | createFail (msg : String)
  | crawlThrow (msg : String)
  | crawlOk (pages : List DiscoveredPageDetail) (workflows : List DiscoveredWorkflow)

def explore (counter : Nat) (store : JsMap ExplorationResult) :
    List (ExplorationTarget × TargetOutcome) →
    Nat × JsMap ExplorationResult × List ExplorationResult
  | [] => (counter, store, [])
  | (target, outcome) :: rest =>
    let c := counter + 1
    let explorationId := "exp-" ++ natStr c
    match outcome with
    | .createFail msg =>
      let r : ExplorationResult :=
        { explorationId := "exp-error", target := { url := "" }, sessionId := "",
          status := .failed, error := some ("Error: " ++ msg),
          pages := [], workflows := [] }
      let rec' := explore c store rest
      (rec'.1, rec'.2.1, r :: rec'.2.2)
    | .crawlThrow msg =>
      let r : ExplorationResult :=
        { explorationId := explorationId, target := target,
          sessionId := explorationId ++ "-session",
          status := .failed, error := some msg, pages := [], workflows := [] }
      let rec' := explore c (store.setVal explorationId r) rest
      (rec'.1, rec'.2.1, r :: rec'.2.2)
    | .crawlOk pages workflows =>
      let r : ExplorationResult :=
        { explorationId := explorationId, target := target,
          sessionId := explorationId ++ "-session",
          status := if pages.length > 0 then .completed else .partialCrawl,
          error := none, pages := pages, workflows := workflows }
      let rec' := explore c (store.setVal explorationId r) rest
      (rec'.1, rec'.2.1, r :: rec'.2.2)

end Coordinator

/-! ## ExplorationCoordinator.discoverPages (bounded BFS crawl)

Browser navigation and the three in-page extraction calls are modelled by a
`web` oracle: `web url = none` models a page whose navigation or extraction
threw (the `catch` skips it), `some f` gives what the batched remote calls
returned for that page.  The crawl additionally records a trace of events —
each page fetch (`visitEv`, keyed by the normalized URL that was dedup-checked)
and each enqueued link (`enqueueEv`) — so that the dedup and depth guarantees
can be stated over the trace. -/

namespace Coordinator

structure FetchedPage where
  currentUrl : String
  title : String
  elements : Nat
  forms : List FormInfo
  links : List LinkInfo
  interactiveElements : List String

inductive CrawlEvent where
  | visitEv (key : String)
  | enqueueEv (key : String) (depth fromDepth : Nat)
deriving DecidableEq, Repr

/-- The `while (queue.length > 0 && pages.length < maxPages)` loop of
`discoverPages`. -/
def bfsLoop (web : String → Option FetchedPage) (maxDepth maxPages : Nat) :
    List String → List DiscoveredPageDetail → List (String × Nat) →
    List DiscoveredPageDetail × List CrawlEvent
  | _, pages, [] => (pages, [])
  | visited, pages, (url, depth) :: qrest =>
    if h : pages.length < maxPages then
      let normalizedUrl := normalizeUrl url
      if visited.contains normalizedUrl then
        bfsLoop web maxDepth maxPages visited pages qrest
      else
        let visited' := normalizedUrl :: visited
        match web url with
        | none =>
          let r := bfsLoop web maxDepth maxPages visited' pages qrest
          (r.1, .visitEv normalizedUrl :: r.2)
        | some f =>
          let page : DiscoveredPageDetail :=
            { url := f.currentUrl, title := f.title, depth := depth,
              elements := f.elements, forms := f.forms, links := f.links,
              interactiveElements := f.interactiveElements }
          let newLinks :=
            if depth < maxDepth then
              (f.links.filter (fun l =>
                l.isInternal && !(visited'.contains (normalizeUrl l.href))
                  && (isPreOf ("http://").data l.href.data
                      || isPreOf ("https://").data l.href.data))).map
                (fun l => (l.href, depth + 1))
            else []
          let r := bfsLoop web maxDepth maxPages visited' (pages ++ [page]) (qrest ++ newLinks)
          (r.1, .visitEv normalizedUrl ::
            ((newLinks.map fun q => CrawlEvent.enqueueEv (normalizeUrl q.1) q.2 depth) ++ r.2))
    else (pages, [])
termination_by visited pages queue => (maxPages - pages.length, queue.length)
decreasing_by
  · apply Prod.Lex.right
    simp
  · apply Prod.Lex.right
    simp
  · apply Prod.Lex.left
    simp only [List.length_append, List.length_cons, List.length_nil]
    omega

def discoverPages (web : String → Option FetchedPage) (startUrl : String)
    (maxDepth maxPages : Nat) : List DiscoveredPageDetail × List CrawlEvent :=
  bfsLoop web maxDepth maxPages [] [] [(startUrl, 0)]

/-- Soundness of a crawl trace with respect to a set of already-visited
normalized keys: a visit is only of a key not yet visited (and marks it
visited), and an enqueue is only of a key not yet visited, at depth
`fromDepth + 1` from a page at depth `fromDepth < maxDepth`. -/
def EventsOk (maxDepth : Nat) : List String → List CrawlEvent → Prop
  | _, [] => True
  | visited, .visitEv k :: rest => k ∉ visited ∧ EventsOk maxDepth (k :: visited) rest
  | visited, .enqueueEv k d fd :: rest =>
      fd < maxDepth ∧ d = fd + 1 ∧ k ∉ visited ∧ EventsOk maxDepth visited rest

end Coordinator

/-! ## SessionPool (src/selenium-mcp-server/src/grid/session-pool.ts)

A `GridSession` is modelled by the data the pool stores about it; the remote
WebDriver build (`builder.build()`) is modelled by a `buildOutcome` oracle
(`Except.error` = the awaited build rejected with that message). -/

structure GridSession where
  sessionId : String
  browser : String
  tags : List String
deriving DecidableEq, Repr

structure PoolState where
  sessions : JsMap GridSession
  counter : Nat
deriving Repr

namespace SessionPool

/-- `sessionId || \`grid-${++sessionCounter}\``: the id used and the counter
after the increment (no increment when an explicit id is given). -/
def newSessionId (st : PoolState) (sessionId : Option String) : String × Nat :=
  match sessionId with
  | some s => (s, st.counter)
  | none => ("grid-" ++ natStr (st.counter + 1), st.counter + 1)

/-- `SessionPool.createSession`: choose the explicit id or the next `grid-N`
id, fail on duplicates, then build the remote driver (fallible) and only on
success insert the session into the pool. -/
def createSession (st : PoolState) (capabilities : Option String)
    (sessionId : Option String) (tags : List String)
    (buildOutcome : Except String Unit) : Except String GridSession × PoolState :=
  if (st.sessions.getVal? (newSessionId st sessionId).1).isSome then
    (Except.error ("Session \"" ++ (newSessionId st sessionId).1 ++ "\" already exists"),
     { st with counter := (newSessionId st sessionId).2 })
  else
    match buildOutcome with
    | .error msg => (Except.error msg, { st with counter := (newSessionId st sessionId).2 })
    | .ok _ =>
      (Except.ok { sessionId := (newSessionId st sessionId).1,
                   browser := capabilities.getD "chrome", tags := tags },
       { sessions := st.sessions.setVal (newSessionId st sessionId).1
           { sessionId := (newSessionId st sessionId).1,
             browser := capabilities.getD "chrome", tags := tags },
         counter := (newSessionId st sessionId).2 })

/-- `SessionPool.getSession`. -/
def getSession (st : PoolState) (sessionId : String) : Option GridSession :=
  st.sessions.getVal? sessionId

/-- `SessionPool.size`. -/
def size (st : PoolState) : Nat := st.sessions.length

end SessionPool

/-! ## ParallelExecuteTool.execute
(src/selenium-mcp-server/src/tools/grid/parallel-execute.ts)

Step arguments are opaque to the orchestration; the effect of running a tool
against a task's session is modelled by an outcome oracle indexed by (task
index, step index): `success`/`errorResult` model a returned `ToolResult` with
`isError` unset/set, `thrown` models the tool throwing.  The tool registry is
the list of registered tool names.  Session creation for tasks without a
`sessionId` is modelled by a `creation` oracle indexed by task index.  The
optional destroy-created-sessions cleanup only mutates the pool and never the
returned results, so it is not modelled. -/

namespace ParallelExec

structure PStep where
  tool : String
deriving DecidableEq, Repr

structure PTask where
  sessionId : Option String
  browser : Option String := none
  tags : List String := []
  steps : List PStep
deriving DecidableEq, Repr

inductive StepStatus where
  | success
  | error
  | skipped
deriving DecidableEq, Repr

structure StepResult where
  step : Nat
  tool : String
  status : StepStatus
  content : String
deriving DecidableEq, Repr

inductive TaskStatus where
  | completed
  | failed
deriving DecidableEq, Repr

structure TaskResult where
  taskIndex : Nat
  sessionId : String
  status : TaskStatus
  error : Option String
  stepResults : List StepResult
deriving DecidableEq, Repr

inductive StepOutcome where
  | success (content : String)
  | errorResult (content : String)
  | thrown (msg : String)

/-- The `for (let j = i + 1; ...)` loops that mark every remaining step
skipped. -/
def skipAll : Nat → List PStep → List StepResult
  | _, [] => []
  | j, s :: rest =>
    { step := j + 1, tool := s.tool, status := .skipped,
      content := "Skipped due to previous error" } :: skipAll (j + 1) rest

/-- The per-task step loop: a recursive-call step or an unregistered tool is an
immediate `error` step with no execution attempt; a returned `isError` result
or a thrown error is an `error` step; in every error case all remaining steps
are `skipped` and the loop breaks. -/
def runSteps (registry : List String) (outcome : Nat → StepOutcome) :
    Nat → List PStep → List StepResult
  | _, [] => []
  | i, s :: rest =>
    if s.tool = "parallel_execute" ∨ s.tool = "batch_execute" then
      { step := i + 1, tool := s.tool, status := .error,
        content := "Recursive " ++ s.tool ++ " calls are not allowed" } :: skipAll (i + 1) rest
    else if ¬ registry.contains s.tool then
      { step := i + 1, tool := s.tool, status := .error,
        content := "Unknown tool: " ++ s.tool } :: skipAll (i + 1) rest
    else
      match outcome i with
      | .success content =>
        { step := i + 1, tool := s.tool, status := .success, content := content }
          :: runSteps registry outcome (i + 1) rest
      | .errorResult content =>
        { step := i + 1, tool := s.tool, status := .error, content := content }
          :: skipAll (i + 1) rest
      | .thrown msg =>
        { step := i + 1, tool := s.tool, status := .error, content := "Error: " ++ msg }
          :: skipAll (i + 1) rest

structure ResolvedTask where
  taskIndex : Nat
  sessionId : String
  steps : List PStep
deriving DecidableEq, Repr

/-- Phase 2 for one resolved task: run the steps, then derive the task status
from whether any step errored. -/
def execTask (registry : List String) (outcome : Nat → Nat → StepOutcome)
    (rt : ResolvedTask) : TaskResult :=
  let stepResults := runSteps registry (outcome rt.taskIndex) 0 rt.steps
  let hasError := stepResults.any (fun r => decide (r.status = StepStatus.error))
  { taskIndex := rt.taskIndex, sessionId := rt.sessionId,
    status := if hasError then .failed else .completed,
    error := none, stepResults := stepResults }

/-- The first phase-1 loop: validate tasks naming an existing session,
fail the ones whose session is unknown, collect the rest for creation. -/
def splitTasks (pool : JsMap GridSession) :
    Nat → List PTask → List ResolvedTask × List TaskResult × List (Nat × PTask)
  | _, [] => ([], [], [])
  | i, t :: rest =>
    let r := splitTasks pool (i + 1) rest
    match t.sessionId with
    | some sid =>
      if (pool.getVal? sid).isSome then
        ({ taskIndex := i, sessionId := sid, steps := t.steps } :: r.1, r.2.1, r.2.2)
      else
        (r.1,
         { taskIndex := i, sessionId := sid, status := .failed,
           error := some ("Session \"" ++ sid ++ "\" not found"),
           stepResults := [] } :: r.2.1,
         r.2.2)
    | none => (r.1, r.2.1, (i, t) :: r.2.2)

/-- The concurrent-creation part of phase 1 (`Promise.allSettled` over
`createSession` calls, results read back in submission order). -/
def createPhase (creation : Nat → Except String String) :
    List (Nat × PTask) → List ResolvedTask × List TaskResult
  | [] => ([], [])
  | (i, t) :: rest =>
    let r := createPhase creation rest
    match creation i with
    | .ok sid =>
      ({ taskIndex := i, sessionId := sid, steps := t.steps } :: r.1, r.2)
    | .error msg =>
      (r.1,
       { taskIndex := i, sessionId := "", status := .failed,
         error := some ("Session creation failed: " ++ msg),
         stepResults := [] } :: r.2)

/-- The final stable sort comparator (`(a, b) => a.taskIndex - b.taskIndex`). -/
def taskLe (a b : TaskResult) : Bool := decide (a.taskIndex ≤ b.taskIndex)

/-- `ParallelExecuteTool.execute`: resolve sessions, run every resolved task,
then order the failed and executed results back by `taskIndex`. -/
def execute (pool : JsMap GridSession) (registry : List String)
    (creation : Nat → Except String String) (outcome : Nat → Nat → StepOutcome)
    (tasks : List PTask) : List TaskResult :=
  let sp := splitTasks pool 0 tasks
  let cp := createPhase creation sp.2.2
  let resolvedTasks := sp.1 ++ cp.1
  let failedTasks := sp.2.1 ++ cp.2
  let executionResults := resolvedTasks.map (execTask registry outcome)
  sortByLe taskLe (failedTasks ++ executionResults)

/-- The outcome of one task, as a function of that task's own data alone. -/
def perTaskResult (pool : JsMap GridSession) (registry : List String)
    (creation : Nat → Except String String) (outcome : Nat → Nat → StepOutcome)
    (i : Nat) (t : PTask) : TaskResult :=
  match t.sessionId with
  | some sid =>
    if (pool.getVal? sid).isSome then
      execTask registry outcome { taskIndex := i, sessionId := sid, steps := t.steps }
    else
      { taskIndex := i, sessionId := sid, status := .failed,
        error := some ("Session \"" ++ sid ++ "\" not found"), stepResults := [] }
  | none =>
    match creation i with
    | .ok sid =>
      execTask registry outcome { taskIndex := i, sessionId := sid, steps := t.steps }
    | .error msg =>
      { taskIndex := i, sessionId := "", status := .failed,
        error := some ("Session creation failed: " ++ msg), stepResults := [] }

def mapIdxFrom (f : Nat → PTask → TaskResult) : Nat → List PTask → List TaskResult
  | _, [] => []
  | i, t :: rest => f i t :: mapIdxFrom f (i + 1) rest

end ParallelExec

/-! ## Element discovery and locator resolution
(src/selenium-mcp-server/src/utils/element-discovery.ts and
`GridSession.getElementByRef`)

The live DOM is modelled as a list of elements in document order
(`querySelector` = first match, `querySelectorAll` = all matches in order).
An element records the attributes and computed-style facts the two
browser-side scripts read; a missing attribute is the empty string (matching
the scripts' `getAttribute(..) || ''`), except `href`, where presence matters
for the `a[href]` selector.  Coordinates are modelled as integers and the
strategy-9 distance comparison on squared distances (`√` is strictly monotone
on non-negative reals, so `dist < 50` ⟺ `dist² < 2500` and likewise for the
best-candidate comparison). -/

namespace ElementDiscovery

structure BoundingBox where
  x : Int
  y : Int
  width : Nat
  height : Nat
deriving DecidableEq, Repr

/-- The attribute record the discovery script builds (`data-testid` is never
recorded by the discovery script, so the find script's strategy 2 — which
reads `attrs['data-testid']` — can never fire and is not modelled). -/
structure ElementAttrs where
  id : String := ""
  name : String := ""
  type : String := ""
  href : String := ""
  placeholder : String := ""
deriving DecidableEq, Repr

structure ElementInfo where
  ref : String
  tagName : String
  text : String
  ariaLabel : Option String
  isClickable : Bool
  isVisible : Bool
  attributes : ElementAttrs
  boundingBox : BoundingBox
deriving DecidableEq, Repr

structure DomElement where
  tagName : String
  idAttr : String := ""
  nameAttr : String := ""
  typeAttr : String := ""
  hrefAttr : Option String := none
  placeholderAttr : String := ""
  ariaLabelAttr : String := ""
  roleAttr : String := ""
  onclickPresent : Bool := false
  tabindexPresent : Bool := false
  textContent : String := ""
  x : Int := 0
  y : Int := 0
  width : Nat := 0
  height : Nat := 0
  displayNone : Bool := false
  visibilityHidden : Bool := false
  opacityZero : Bool := false
  offsetParentNull : Bool := false
deriving DecidableEq, Repr

/-- The find script's `isVisible`: non-zero rect and not hidden by style. -/
def isVisibleEl (el : DomElement) : Bool :=
  !(el.width == 0 && el.height == 0) && !el.displayNone
    && !el.visibilityHidden && !el.opacityZero

/-- Whether an element matches the interactive-selector list of the discovery
script (`a, button, input, select, textarea, [role=button|link|checkbox|radio],
[onclick], [tabindex]`). -/
def matchesInteractive (el : DomElement) : Bool :=
  el.tagName ∈ ["a", "button", "input", "select", "textarea"]
    || el.roleAttr ∈ ["button", "link", "checkbox", "radio"]
    || el.onclickPresent || el.tabindexPresent

/-- The per-element record the discovery script pushes. -/
def elementInfoOf (refCount : Nat) (el : DomElement) : ElementInfo :=
  { ref := "e" ++ natStr refCount,
    tagName := el.tagName,
    text := String.mk (charTake 100 (charTrim el.textContent.data)),
    ariaLabel := if el.ariaLabelAttr ≠ "" then some el.ariaLabelAttr else none,
    isClickable := el.tagName ∈ ["a", "button", "input"]
      || el.onclickPresent || el.roleAttr = "button",
    isVisible := true,
    attributes :=
      { id := el.idAttr, name := el.nameAttr, type := el.typeAttr,
        href := el.hrefAttr.getD "", placeholder := el.placeholderAttr },
    boundingBox := { x := el.x, y := el.y, width := el.width, height := el.height } }

/-- The discovery loop over the interactive candidates: skip hidden and
zero-rect elements, assign refs `e1`, `e2`, …, stop at 100 results. -/
def discoverGo : Nat → List DomElement → List (String × ElementInfo)
  | _, [] => []
  | refCount, el :: rest =>
    if refCount > 100 then []
    else if el.offsetParentNull && el.tagName ≠ "body" && el.displayNone then
      discoverGo refCount rest
    else if el.width == 0 && el.height == 0 then
      discoverGo refCount rest
    else
      ("e" ++ natStr refCount, elementInfoOf refCount el) :: discoverGo (refCount + 1) rest

/-- `discoverElements` / `discoverElementsFast`: one batched script call. -/
def discoverElements (page : List DomElement) : JsMap ElementInfo :=
  discoverGo 1 (page.filter matchesInteractive)

def tryVisible (cand : Option DomElement) : Option DomElement :=
  match cand with
  | some el => if isVisibleEl el then some el else none
  | none => none

/-- Strategy 1: `document.getElementById(attrs.id)`. -/
def strategyId (page : List DomElement) (info : ElementInfo) : Option DomElement :=
  if info.attributes.id ≠ "" then
    tryVisible (page.find? (fun el => el.idAttr == info.attributes.id))
  else none

/-- Strategy 3: `[name="…"]`. -/
def strategyName (page : List DomElement) (info : ElementInfo) : Option DomElement :=
  if info.attributes.name ≠ "" then
    tryVisible (page.find? (fun el => el.nameAttr == info.attributes.name))
  else none

/-- Strategy 4: `[aria-label="…"]`. -/
def strategyAria (page : List DomElement) (info : ElementInfo) : Option DomElement :=
  if info.ariaLabel.getD "" ≠ "" then
    tryVisible (page.find? (fun el => el.ariaLabelAttr == info.ariaLabel.getD ""))
  else none

/-- Strategy 5: `tag[placeholder="…"]`. -/
def strategyPlaceholder (page : List DomElement) (info : ElementInfo) : Option DomElement :=
  if info.attributes.placeholder ≠ "" then
    tryVisible (page.find? (fun el =>
      el.tagName == info.tagName && el.placeholderAttr == info.attributes.placeholder))
  else none

/-- Strategy 6: `tag[type="…"]`, cross-checked against the remembered text
(first 30 chars) when there is one. -/
def strategyTagType (page : List DomElement) (info : ElementInfo) : Option DomElement :=
  if info.attributes.type ≠ "" then
    page.find? (fun el =>
      el.tagName == info.tagName && el.typeAttr == info.attributes.type
        && isVisibleEl el
        && (info.text == ""
            || containsSub (charTake 30 info.text.data) (charTrim el.textContent.data)))
  else none

/-- Strategy 7: tag + descendant text containment (first 30 chars), only for
text-bearing tags. -/
def strategyTagText (page : List DomElement) (info : ElementInfo) : Option DomElement :=
  if info.text ≠ "" && info.tagName ∈ ["a", "button", "label", "span", "div",
      "h1", "h2", "h3", "h4", "h5", "h6", "p", "li", "td", "th"] then
    page.find? (fun el =>
      el.tagName == info.tagName && isVisibleEl el
        && containsSub (charTake 30 info.text.data) (charTrim el.textContent.data))
  else none

/-- Strategy 8: `a[href]` with the exact remembered href. -/
def strategyHref (page : List DomElement) (info : ElementInfo) : Option DomElement :=
  if info.attributes.href ≠ "" && info.tagName == "a" then
    page.find? (fun el =>
      el.tagName == "a" && el.hrefAttr.isSome
        && el.hrefAttr == some info.attributes.href && isVisibleEl el)
  else none

/-- Strategy 9's scan: nearest visible same-tag element within 50px, compared
on squared distances. -/
def positionScan (tag : String) (bx0 by0 : Int) :
    List DomElement → Option (DomElement × Int) → Option (DomElement × Int)
  | [], best => best
  | el :: rest, best =>
    if el.tagName == tag && isVisibleEl el then
      let dx := el.x - bx0
      let dy := el.y - by0
      let dsq := dx * dx + dy * dy
      let better :=
        match best with
        | none => decide (dsq < 2500)
        | some b => decide (dsq < b.2) && decide (dsq < 2500)
      if better then positionScan tag bx0 by0 rest (some (el, dsq))
      else positionScan tag bx0 by0 rest best
    else positionScan tag bx0 by0 rest best

/-- Strategy 9 (the discovery script always records a bounding box, so the
`if (bbox)` guard always holds for snapshot-derived infos). -/
def strategyPosition (page : List DomElement) (info : ElementInfo) : Option DomElement :=
  match positionScan info.tagName info.boundingBox.x info.boundingBox.y page none with
  | some b => some b.1
  | none => none

/-- `FIND_ELEMENT_SCRIPT`: the prioritized strategy chain, stopping at the
first visible match. -/
def findElementScript (page : List DomElement) (info : ElementInfo) : Option DomElement :=
  strategyId page info <|> strategyName page info <|> strategyAria page info
    <|> strategyPlaceholder page info <|> strategyTagType page info
    <|> strategyTagText page info <|> strategyHref page info
    <|> strategyPosition page info

/-- `findElementByInfo`: throws when no strategy matched. -/
def findElementByInfo (page : List DomElement) (info : ElementInfo) :
    Except String DomElement :=
  match findElementScript page info with
  | some el => Except.ok el
  | none => Except.error ("Could not find element: " ++ info.ref ++ " (" ++ info.tagName ++ ")")

/-- `GridSession.captureSnapshot`, restricted to the element map (the URL and
title fields play no part in ref resolution). -/
def captureSnapshot (page : List DomElement) : JsMap ElementInfo :=
  discoverElements page

/-- The `if (!this.snapshot) await this.captureSnapshot()` step: the snapshot
the ref lookup actually reads. -/
def effectiveSnapshot (snapshot : Option (JsMap ElementInfo))
    (page : List DomElement) : JsMap ElementInfo :=
  match snapshot with
  | some s => s
  | none => captureSnapshot page

/-- `GridSession.getElementByRef`: capture a fresh snapshot when none is
cached, look the ref up in the (possibly fresh) snapshot, then resolve it
against the live page. -/
def getElementByRef (snapshot : Option (JsMap ElementInfo))
    (page : List DomElement) (ref : String) : Except String DomElement :=
  match (effectiveSnapshot snapshot page).getVal? ref with
  | none => Except.error ("Element ref not found: " ++ ref ++ ". Available refs: "
      ++ String.intercalate ", " (JsMap.keys (effectiveSnapshot snapshot page)))
  | some info => findElementByInfo page info

end ElementDiscovery

/-! ## Claim theorems -/

theorem createSession_fail_no_insert (st : PoolState) (caps sid : Option String)
    (tags : List String) (bo : Except String Unit) (e : String)
    (h : (SessionPool.createSession st caps sid tags bo).1 = Except.error e) :
    ((SessionPool.createSession st caps sid tags bo).2).sessions = st.sessions := by
  rw [SessionPool.createSession.eq_def] at h ⊢
  by_cases hdup : (st.sessions.getVal? (SessionPool.newSessionId st sid).1).isSome = true
  · rw [if_pos hdup] at h ⊢
  · rw [if_neg hdup] at h ⊢
    cases bo with
    | error msg => rfl
    | ok u => simp at h

/-- C6. `createSession` with an `explicitId` already in the pool fails with the
duplicate-session error and, on any creation failure, adds no entry; creating
`"s1"` twice in sequence leaves the second call failing and the pool size one
larger than before (1 when starting from an empty pool). -/
theorem claim_C6_createSession_duplicate (st : PoolState) (caps₁ : Option String)
    (tags₁ : List String) (h : st.sessions.getVal? "s1" = none) :
    (∀ (st' : PoolState) (caps sid : Option String) (tags : List String)
        (bo : Except String Unit) (e : String),
        (SessionPool.createSession st' caps sid tags bo).1 = Except.error e →
        ((SessionPool.createSession st' caps sid tags bo).2).sessions = st'.sessions) ∧
    (SessionPool.createSession st caps₁ (some "s1") tags₁ (Except.ok ())).1
      = Except.ok { sessionId := "s1", browser := caps₁.getD "chrome", tags := tags₁ } ∧
    SessionPool.size (SessionPool.createSession st caps₁ (some "s1") tags₁ (Except.ok ())).2
      = SessionPool.size st + 1 ∧
    (∀ (caps₂ : Option String) (tags₂ : List String) (bo₂ : Except String Unit),
      (SessionPool.createSession
          (SessionPool.createSession st caps₁ (some "s1") tags₁ (Except.ok ())).2
          caps₂ (some "s1") tags₂ bo₂).1
        = Except.error "Session \"s1\" already exists" ∧
      SessionPool.size (SessionPool.createSession
          (SessionPool.createSession st caps₁ (some "s1") tags₁ (Except.ok ())).2
          caps₂ (some "s1") tags₂ bo₂).2
        = SessionPool.size st + 1) := by
  have hfalse : (st.sessions.getVal? "s1").isSome = false := by
    rw [h]; rfl
  have hstep : SessionPool.createSession st caps₁ (some "s1") tags₁ (Except.ok ())
      = (Except.ok { sessionId := "s1", browser := caps₁.getD "chrome", tags := tags₁ },
         { sessions := st.sessions.setVal "s1"
             { sessionId := "s1", browser := caps₁.getD "chrome", tags := tags₁ },
           counter := st.counter }) := by
    rw [SessionPool.createSession.eq_def]
    simp only [SessionPool.newSessionId, hfalse]
    simp
  have hsize : (st.sessions.setVal "s1"
      { sessionId := "s1", browser := caps₁.getD "chrome", tags := tags₁ }).length
      = st.sessions.length + 1 := by
    rw [JsMap.length_setVal]
    rw [if_neg (fun hmem => ((JsMap.getVal?_eq_none_iff st.sessions "s1").mp h) hmem)]
  refine ⟨createSession_fail_no_insert, ?_, ?_, ?_⟩
  · rw [hstep]
  · rw [hstep, SessionPool.size, SessionPool.size]
    exact hsize
  · intro caps₂ tags₂ bo₂
    have hdup : ((st.sessions.setVal "s1"
        { sessionId := "s1", browser := caps₁.getD "chrome", tags := tags₁ }).getVal?
          "s1").isSome = true := by
      rw [JsMap.getVal?_setVal_self]
      rfl
    rw [hstep]
    constructor
    · rw [SessionPool.createSession.eq_def]
      simp only [SessionPool.newSessionId]
      rw [if_pos hdup]
      rfl
    · rw [SessionPool.createSession.eq_def]
      simp only [SessionPool.newSessionId]
      rw [if_pos hdup, SessionPool.size, SessionPool.size]
      exact hsize

/-- Witness for C6 at the empty pool. -/
theorem claim_C6_witness :
    (SessionPool.createSession ⟨[], 0⟩ none (some "s1") [] (Except.ok ())).1
      = Except.ok { sessionId := "s1", browser := "chrome", tags := [] } ∧
    (SessionPool.createSession
        (SessionPool.createSession ⟨[], 0⟩ none (some "s1") [] (Except.ok ())).2
        none (some "s1") [] (Except.ok ())).1
      = Except.error "Session \"s1\" already exists" ∧
    SessionPool.size (SessionPool.createSession
        (SessionPool.createSession ⟨[], 0⟩ none (some "s1") [] (Except.ok ())).2
        none (some "s1") [] (Except.ok ())).2 = 1 := by
  have h := claim_C6_createSession_duplicate ⟨[], 0⟩ none [] (by rfl)
  exact ⟨h.2.1, (h.2.2.2 none [] (Except.ok ())).1, (h.2.2.2 none [] (Except.ok ())).2⟩

theorem filterMap_filter_isSome {α β : Type} (f : α → Option β) (l : List α) :
    (l.filter fun a => (f a).isSome).filterMap f = l.filterMap f := by
  induction l with
  | nil => rfl
  | cons x xs ih =>
    cases hf : f x with
    | none => simp [List.filter_cons, List.filterMap_cons, hf, ih]
    | some b => simp [List.filter_cons, List.filterMap_cons, hf, ih]

/-- C2 (amended). `merge` throws its not-found error exactly when none of the
given ids is in the store; when at least one id is known it succeeds, and the
aggregation it returns is the one computed over the known subset of the ids
(every field agrees with a `merge` over the known ids except the echoed
`explorationIds` input list). -/
theorem claim_C2_amended (store : JsMap ExplorationResult) (ids : List String) :
    ((∃ e, Coordinator.merge store ids = Except.error e)
      ↔ (∀ id ∈ ids, store.getVal? id = none)) ∧
    (∀ m, Coordinator.merge store ids = Except.ok m →
      ∃ m', Coordinator.merge store (ids.filter fun id => (store.getVal? id).isSome)
          = Except.ok m'
        ∧ m'.totalPages = m.totalPages ∧ m'.uniquePages = m.uniquePages
        ∧ m'.duplicatesRemoved = m.duplicatesRemoved ∧ m'.siteMap = m.siteMap
        ∧ m'.allForms = m.allForms ∧ m'.allWorkflows = m.allWorkflows) := by
  constructor
  · constructor
    · rintro ⟨e, he⟩
      simp only [Coordinator.merge] at he
      by_cases hem : (ids.filterMap fun id => store.getVal? id).isEmpty = true
      · exact List.filterMap_eq_nil.mp (List.isEmpty_iff.mp hem)
      · rw [if_neg hem] at he
        simp at he
    · intro hall
      refine ⟨"No explorations found for the given IDs", ?_⟩
      simp only [Coordinator.merge]
      have hnil : (ids.filterMap fun id => store.getVal? id) = [] :=
        List.filterMap_eq_nil.mpr hall
      rw [hnil]
      rfl
  · intro m hm
    simp only [Coordinator.merge] at hm ⊢
    rw [filterMap_filter_isSome]
    by_cases hem : (ids.filterMap fun id => store.getVal? id).isEmpty = true
    · rw [if_pos hem] at hm
      simp at hm
    · rw [if_neg hem] at hm ⊢
      have hm' := (Except.ok.inj hm).symm
      refine ⟨_, rfl, ?_, ?_, ?_, ?_, ?_, ?_⟩ <;> rw [hm']

/-- Witness for C2 (amended), at a store holding one exploration and a request
mixing one known and one unknown id: the error characterization applies and
shows `merge` cannot fail there. -/
theorem claim_C2_witness :
    ¬ (∃ e, Coordinator.merge
      [("exp-1",
        { explorationId := "exp-1", target := { url := "http://a" },
          sessionId := "exp-1-session", status := .completed, error := none,
          pages := [], workflows := [] })] ["exp-1", "exp-2"] = Except.error e) := by
  intro h
  have hall := (claim_C2_amended
    [("exp-1",
      { explorationId := "exp-1", target := { url := "http://a" },
        sessionId := "exp-1-session", status := .completed, error := none,
        pages := [], workflows := [] })] ["exp-1", "exp-2"]).1.mp h
  have h1 := hall "exp-1" (by simp)
  simp [JsMap.getVal?] at h1

/-- C2 counterexample. With `exp-1` stored and `exp-2` unknown,
`merge(["exp-1","exp-2"])` does not fail — it aggregates over the known
subset — refuting the claim that any unknown id makes `merge` fail. -/
theorem claim_C2_counterexample :
    Coordinator.merge
      [("exp-1",
        { explorationId := "exp-1", target := { url := "http://a" },
          sessionId := "exp-1-session", status := .completed, error := none,
          pages := [], workflows := [] })] ["exp-1", "exp-2"]
    = Except.ok
      { explorationIds := ["exp-1", "exp-2"], totalPages := 0, uniquePages := 0,
        duplicatesRemoved := 0, siteMap := [], allForms := [], allWorkflows := [] } := by
  rfl

namespace Coordinator

theorem pagesToMap_foldl_nodup (pages : List DiscoveredPageDetail)
    (m₀ : JsMap DiscoveredPageDetail) (h : (JsMap.keys m₀).Nodup) :
    (JsMap.keys (pages.foldl (fun m p => m.setVal (normalizeUrl p.url) p) m₀)).Nodup := by
  induction pages generalizing m₀ with
  | nil => exact h
  | cons p ps ih =>
    exact ih _ (JsMap.nodup_keys_setVal _ _ h)

theorem pagesToMap_nodup (pages : List DiscoveredPageDetail) :
    (JsMap.keys (pagesToMap pages)).Nodup :=
  pagesToMap_foldl_nodup pages [] (by simp [JsMap.keys])

theorem diffScanCurrent_added_mem (bm : JsMap DiscoveredPageDetail)
    (entries : List (String × DiscoveredPageDetail)) (u : String) :
    u ∈ (diffScanCurrent bm entries).1
      ↔ ∃ k p, (k, p) ∈ entries ∧ p.url = u ∧ bm.getVal? k = none := by
  induction entries with
  | nil => simp [diffScanCurrent]
  | cons e rest ih =>
    rcases e with ⟨k₀, p₀⟩
    rw [diffScanCurrent]
    cases hb : bm.getVal? k₀ with
    | none =>
      dsimp only
      simp only [List.mem_cons, ih]
      constructor
      · rintro (h | ⟨k, p, hm, hu, hn⟩)
        · exact ⟨k₀, p₀, Or.inl rfl, h.symm, hb⟩
        · exact ⟨k, p, Or.inr hm, hu, hn⟩
      · rintro ⟨k, p, hm | hm, hu, hn⟩
        · rcases Prod.mk.inj hm.symm with ⟨hk, hp⟩
          exact Or.inl (by rw [← hu, hp])
        · exact Or.inr ⟨k, p, hm, hu, hn⟩
    | some bp =>
      dsimp only
      by_cases hne : bp.elements ≠ p₀.elements
      · rw [if_pos hne]
        simp only [List.mem_cons, ih]
        constructor
        · rintro ⟨k, p, hm, hu, hn⟩
          exact ⟨k, p, Or.inr hm, hu, hn⟩
        · rintro ⟨k, p, hm | hm, hu, hn⟩
          · rcases Prod.mk.inj hm.symm with ⟨hk, hp⟩
            rw [hk] at hb
            rw [hb] at hn
            exact absurd hn (by simp)
          · exact ⟨k, p, hm, hu, hn⟩
      · rw [if_neg hne]
        simp only [List.mem_cons, ih]
        constructor
        · rintro ⟨k, p, hm, hu, hn⟩
          exact ⟨k, p, Or.inr hm, hu, hn⟩
        · rintro ⟨k, p, hm | hm, hu, hn⟩
          · rcases Prod.mk.inj hm.symm with ⟨hk, hp⟩
            rw [hk] at hb
            rw [hb] at hn
            exact absurd hn (by simp)
          · exact ⟨k, p, hm, hu, hn⟩

theorem diffScanCurrent_changed_mem (bm : JsMap DiscoveredPageDetail)
    (entries : List (String × DiscoveredPageDetail)) (c : ExplorationDiffChange) :
    c ∈ (diffScanCurrent bm entries).2
      ↔ ∃ k p bp, (k, p) ∈ entries ∧ bm.getVal? k = some bp
          ∧ bp.elements ≠ p.elements
          ∧ c = { url := p.url,
                  elementDiff := (p.elements : Int) - (bp.elements : Int) } := by
  induction entries with
  | nil => simp [diffScanCurrent]
  | cons e rest ih =>
    rcases e with ⟨k₀, p₀⟩
    rw [diffScanCurrent]
    cases hb : bm.getVal? k₀ with
    | none =>
      dsimp only
      simp only [List.mem_cons, ih]
      constructor
      · rintro ⟨k, p, bp, hm, hs, hne, hc⟩
        exact ⟨k, p, bp, Or.inr hm, hs, hne, hc⟩
      · rintro ⟨k, p, bp, hm | hm, hs, hne, hc⟩
        · rcases Prod.mk.inj hm.symm with ⟨hk, hp⟩
          rw [hk] at hb
          rw [hb] at hs
          exact absurd hs (by simp)
        · exact ⟨k, p, bp, hm, hs, hne, hc⟩
    | some bp₀ =>
      dsimp only
      by_cases hne₀ : bp₀.elements ≠ p₀.elements
      · rw [if_pos hne₀]
        simp only [List.mem_cons, ih]
        constructor
        · rintro (h | ⟨k, p, bp, hm, hs, hne, hc⟩)
          · exact ⟨k₀, p₀, bp₀, Or.inl rfl, hb, hne₀, h⟩
          · exact ⟨k, p, bp, Or.inr hm, hs, hne, hc⟩
        · rintro ⟨k, p, bp, hm | hm, hs, hne, hc⟩
          · rcases Prod.mk.inj hm.symm with ⟨hk, hp⟩
            rw [hk] at hb
            rw [hb] at hs
            have hbp : bp = bp₀ := (Option.some.inj hs).symm
            exact Or.inl (by rw [hc, ← hp, hbp])
          · exact Or.inr ⟨k, p, bp, hm, hs, hne, hc⟩
      · rw [if_neg hne₀]
        simp only [List.mem_cons, ih]
        constructor
        · rintro ⟨k, p, bp, hm, hs, hne, hc⟩
          exact ⟨k, p, bp, Or.inr hm, hs, hne, hc⟩
        · rintro ⟨k, p, bp, hm | hm, hs, hne, hc⟩
          · rcases Prod.mk.inj hm.symm with ⟨hk, hp⟩
            rw [hk] at hb
            rw [hb] at hs
            have hbp : bp = bp₀ := (Option.some.inj hs).symm
            rw [hbp, ← hp] at hne
            exact absurd hne hne₀
          · exact ⟨k, p, bp, hm, hs, hne, hc⟩

theorem diffScanBaseline_mem (cm : JsMap DiscoveredPageDetail)
    (entries : List (String × DiscoveredPageDetail)) (u : String) :
    u ∈ diffScanBaseline cm entries
      ↔ ∃ k p, (k, p) ∈ entries ∧ p.url = u ∧ cm.getVal? k = none := by
  induction entries with
  | nil => simp [diffScanBaseline]
  | cons e rest ih =>
    rcases e with ⟨k₀, p₀⟩
    rw [diffScanBaseline]
    by_cases hs : (cm.getVal? k₀).isSome = true
    · rw [if_pos hs]
      simp only [List.mem_cons, ih]
      constructor
      · rintro ⟨k, p, hm, hu, hn⟩
        exact ⟨k, p, Or.inr hm, hu, hn⟩
      · rintro ⟨k, p, hm | hm, hu, hn⟩
        · rcases Prod.mk.inj hm.symm with ⟨hk, hp⟩
          rw [hk] at hs
          rw [hn] at hs
          simp at hs
        · exact ⟨k, p, hm, hu, hn⟩
    · rw [if_neg hs]
      have hnone : cm.getVal? k₀ = none := by
        cases h : cm.getVal? k₀ with
        | none => rfl
        | some v => rw [h] at hs; simp at hs
      simp only [List.mem_cons, ih]
      constructor
      · rintro (h | ⟨k, p, hm, hu, hn⟩)
        · exact ⟨k₀, p₀, Or.inl rfl, h.symm, hnone⟩
        · exact ⟨k, p, Or.inr hm, hu, hn⟩
      · rintro ⟨k, p, hm | hm, hu, hn⟩
        · rcases Prod.mk.inj hm.symm with ⟨hk, hp⟩
          exact Or.inl (by rw [← hu, hp])
        · exact Or.inr ⟨k, p, hm, hu, hn⟩

end Coordinator

/-- C7. For two stored explorations, `diff(baselineId, currentId)` — keyed by
normalized URL via the page maps — returns as `added` exactly the pages whose
key is in the current map only, as `removed` exactly those in the baseline map
only, and as `changed` exactly those in both with differing element counts,
with signed delta current − baseline; and `diff(A,A)` is empty for any
stored A. -/
theorem claim_C7_diff (store : JsMap ExplorationResult) (A B : String)
    (ea eb : ExplorationResult) (hA : store.getVal? A = some ea)
    (hB : store.getVal? B = some eb) :
    (∃ d, Coordinator.diff store A B = Except.ok d ∧
      (∀ u, u ∈ d.added ↔ ∃ k p,
        (Coordinator.pagesToMap eb.pages).getVal? k = some p ∧ p.url = u ∧
        (Coordinator.pagesToMap ea.pages).getVal? k = none) ∧
      (∀ u, u ∈ d.removed ↔ ∃ k p,
        (Coordinator.pagesToMap ea.pages).getVal? k = some p ∧ p.url = u ∧
        (Coordinator.pagesToMap eb.pages).getVal? k = none) ∧
      (∀ c, c ∈ d.changed ↔ ∃ k p bp,
        (Coordinator.pagesToMap eb.pages).getVal? k = some p ∧
        (Coordinator.pagesToMap ea.pages).getVal? k = some bp ∧
        bp.elements ≠ p.elements ∧
        c = { url := p.url,
              elementDiff := (p.elements : Int) - (bp.elements : Int) })) ∧
    Coordinator.diff store A A = Except.ok { added := [], removed := [], changed := [] } := by
  have hmemA := Coordinator.pagesToMap_nodup ea.pages
  have hmemB := Coordinator.pagesToMap_nodup eb.pages
  have hd : Coordinator.diff store A B = Except.ok
      { added := (Coordinator.diffScanCurrent (Coordinator.pagesToMap ea.pages)
          (Coordinator.pagesToMap eb.pages)).1,
        removed := Coordinator.diffScanBaseline (Coordinator.pagesToMap eb.pages)
          (Coordinator.pagesToMap ea.pages),
        changed := (Coordinator.diffScanCurrent (Coordinator.pagesToMap ea.pages)
          (Coordinator.pagesToMap eb.pages)).2 } := by
    simp only [Coordinator.diff, hA, hB]
  constructor
  · refine ⟨_, hd, ?_, ?_, ?_⟩
    · intro u
      rw [Coordinator.diffScanCurrent_added_mem]
      constructor
      · rintro ⟨k, p, hm, hu, hn⟩
        exact ⟨k, p, JsMap.mem_getVal? hmemB hm, hu, hn⟩
      · rintro ⟨k, p, hg, hu, hn⟩
        exact ⟨k, p, JsMap.getVal?_mem hg, hu, hn⟩
    · intro u
      rw [Coordinator.diffScanBaseline_mem]
      constructor
      · rintro ⟨k, p, hm, hu, hn⟩
        exact ⟨k, p, JsMap.mem_getVal? hmemA hm, hu, hn⟩
      · rintro ⟨k, p, hg, hu, hn⟩
        exact ⟨k, p, JsMap.getVal?_mem hg, hu, hn⟩
    · intro c
      rw [Coordinator.diffScanCurrent_changed_mem]
      constructor
      · rintro ⟨k, p, bp, hm, hs, hne, hc⟩
        exact ⟨k, p, bp, JsMap.mem_getVal? hmemB hm, hs, hne, hc⟩
      · rintro ⟨k, p, bp, hg, hs, hne, hc⟩
        exact ⟨k, p, bp, JsMap.getVal?_mem hg, hs, hne, hc⟩
  · simp only [Coordinator.diff, hA]
    have hadded : (Coordinator.diffScanCurrent (Coordinator.pagesToMap ea.pages)
        (Coordinator.pagesToMap ea.pages)).1 = [] := by
      apply List.eq_nil_iff_forall_not_mem.mpr
      intro u hu
      rcases (Coordinator.diffScanCurrent_added_mem _ _ u).mp hu with ⟨k, p, hm, _, hn⟩
      rw [JsMap.mem_getVal? hmemA hm] at hn
      exact absurd hn (by simp)
    have hchanged : (Coordinator.diffScanCurrent (Coordinator.pagesToMap ea.pages)
        (Coordinator.pagesToMap ea.pages)).2 = [] := by
      apply List.eq_nil_iff_forall_not_mem.mpr
      intro c hc
      rcases (Coordinator.diffScanCurrent_changed_mem _ _ c).mp hc with
        ⟨k, p, bp, hm, hs, hne, _⟩
      rw [JsMap.mem_getVal? hmemA hm] at hs
      exact hne (by rw [Option.some.inj hs])
    have hremoved : Coordinator.diffScanBaseline (Coordinator.pagesToMap ea.pages)
        (Coordinator.pagesToMap ea.pages) = [] := by
      apply List.eq_nil_iff_forall_not_mem.mpr
      intro u hu
      rcases (Coordinator.diffScanBaseline_mem _ _ u).mp hu with ⟨k, p, hm, _, hn⟩
      rw [JsMap.mem_getVal? hmemA hm] at hn
      exact absurd hn (by simp)
    rw [hadded, hchanged, hremoved]

/-- Witness for C7: `diff(A,A)` on a concretely stored exploration is empty. -/
theorem claim_C7_witness :
    Coordinator.diff
      [("A", { explorationId := "A", target := { url := "http://s" }, sessionId := "sa",
               status := .completed, error := none,
               pages := [
                 { url := "http://s/x", title := "x", depth := 0, elements := 3,
                   forms := [], links := [], interactiveElements := [] }],
               workflows := [] }),
       ("B", { explorationId := "B", target := { url := "http://s" }, sessionId := "sb",
               status := .completed, error := none,
               pages := [
                 { url := "http://s/x", title := "x", depth := 0, elements := 5,
                   forms := [], links := [], interactiveElements := [] }],
               workflows := [] })] "A" "A"
      = Except.ok { added := [], removed := [], changed := [] } :=
  (claim_C7_diff
    [("A", { explorationId := "A", target := { url := "http://s" }, sessionId := "sa",
             status := .completed, error := none,
             pages := [
               { url := "http://s/x", title := "x", depth := 0, elements := 3,
                 forms := [], links := [], interactiveElements := [] }],
             workflows := [] }),
     ("B", { explorationId := "B", target := { url := "http://s" }, sessionId := "sb",
             status := .completed, error := none,
             pages := [
               { url := "http://s/x", title := "x", depth := 0, elements := 5,
                 forms := [], links := [], interactiveElements := [] }],
             workflows := [] })] "A" "B"
    { explorationId := "A", target := { url := "http://s" }, sessionId := "sa",
      status := .completed, error := none,
      pages := [
        { url := "http://s/x", title := "x", depth := 0, elements := 3,
          forms := [], links := [], interactiveElements := [] }],
      workflows := [] }
    { explorationId := "B", target := { url := "http://s" }, sessionId := "sb",
      status := .completed, error := none,
      pages := [
        { url := "http://s/x", title := "x", depth := 0, elements := 5,
          forms := [], links := [], interactiveElements := [] }],
      workflows := [] }
    (by rfl) (by rfl)).2

namespace Coordinator

theorem mergePage_total (expId : String)
    (acc : JsMap SiteMapEntry × List FormInfo × Nat) (page : DiscoveredPageDetail) :
    (mergePage expId acc page).2.2 = acc.2.2 + 1 := by
  rw [mergePage]

theorem mergePage_foldl_total (expId : String) (pages : List DiscoveredPageDetail)
    (acc : JsMap SiteMapEntry × List FormInfo × Nat) :
    (pages.foldl (mergePage expId) acc).2.2 = acc.2.2 + pages.length := by
  induction pages generalizing acc with
  | nil => rfl
  | cons p ps ih =>
    rw [List.foldl_cons, ih, mergePage_total]
    simp only [List.length_cons]
    omega

theorem mergeExploration_foldl_total (exps : List ExplorationResult)
    (acc : JsMap SiteMapEntry × List FormInfo × Nat × List DiscoveredWorkflow) :
    (exps.foldl mergeExploration acc).2.2.1
      = acc.2.2.1 + (exps.map (fun e => e.pages.length)).sum := by
  induction exps generalizing acc with
  | nil => simp
  | cons e es ih =>
    rw [List.foldl_cons, ih]
    have : (mergeExploration acc e).2.2.1
        = acc.2.2.1 + e.pages.length := by
      rw [mergeExploration]
      dsimp only
      rw [mergePage_foldl_total]
    rw [this, List.map_cons, List.sum_cons]
    omega

theorem mergePage_fst_keys (expId : String)
    (acc : JsMap SiteMapEntry × List FormInfo × Nat) (page : DiscoveredPageDetail)
    (k : String) :
    k ∈ JsMap.keys (mergePage expId acc page).1
      ↔ k = normalizeUrl page.url ∨ k ∈ JsMap.keys acc.1 := by
  rw [mergePage]
  cases acc.1.getVal? (normalizeUrl page.url) with
  | none => exact JsMap.mem_keys_setVal _ _ _ _
  | some existing => exact JsMap.mem_keys_setVal _ _ _ _

theorem mergePage_fst_nodup (expId : String)
    (acc : JsMap SiteMapEntry × List FormInfo × Nat) (page : DiscoveredPageDetail)
    (h : (JsMap.keys acc.1).Nodup) : (JsMap.keys (mergePage expId acc page).1).Nodup := by
  rw [mergePage]
  cases acc.1.getVal? (normalizeUrl page.url) with
  | none => exact JsMap.nodup_keys_setVal _ _ h
  | some existing => exact JsMap.nodup_keys_setVal _ _ h

theorem mergePage_foldl_keys (expId : String) (pages : List DiscoveredPageDetail)
    (acc : JsMap SiteMapEntry × List FormInfo × Nat) (k : String) :
    k ∈ JsMap.keys (pages.foldl (mergePage expId) acc).1
      ↔ k ∈ JsMap.keys acc.1 ∨ k ∈ pages.map (fun p => normalizeUrl p.url) := by
  induction pages generalizing acc with
  | nil => simp
  | cons p ps ih =>
    rw [List.foldl_cons, ih, mergePage_fst_keys]
    simp only [List.map_cons, List.mem_cons]
    tauto

theorem mergePage_foldl_nodup (expId : String) (pages : List DiscoveredPageDetail)
    (acc : JsMap SiteMapEntry × List FormInfo × Nat)
    (h : (JsMap.keys acc.1).Nodup) :
    (JsMap.keys (pages.foldl (mergePage expId) acc).1).Nodup := by
  induction pages generalizing acc with
  | nil => exact h
  | cons p ps ih =>
    rw [List.foldl_cons]
    exact ih _ (mergePage_fst_nodup _ _ _ h)

theorem mergeExploration_fst (acc : JsMap SiteMapEntry × List FormInfo × Nat × List DiscoveredWorkflow)
    (e : ExplorationResult) :
    (mergeExploration acc e).1
      = (e.pages.foldl (mergePage e.explorationId) (acc.1, acc.2.1, acc.2.2.1)).1 := by
  rw [mergeExploration]

theorem mergeExploration_foldl_keys (exps : List ExplorationResult)
    (acc : JsMap SiteMapEntry × List FormInfo × Nat × List DiscoveredWorkflow)
    (k : String) :
    k ∈ JsMap.keys (exps.foldl mergeExploration acc).1
      ↔ k ∈ JsMap.keys acc.1
        ∨ k ∈ (exps.map (fun e => e.pages.map (fun p => normalizeUrl p.url))).join := by
  induction exps generalizing acc with
  | nil => simp
  | cons e es ih =>
    rw [List.foldl_cons, ih]
    have h1 : k ∈ JsMap.keys (mergeExploration acc e).1
        ↔ k ∈ JsMap.keys acc.1 ∨ k ∈ e.pages.map (fun p => normalizeUrl p.url) := by
      rw [mergeExploration_fst, mergePage_foldl_keys]
    rw [h1]
    simp only [List.map_cons, List.join_cons, List.mem_append]
    tauto

theorem mergeExploration_foldl_nodup (exps : List ExplorationResult)
    (acc : JsMap SiteMapEntry × List FormInfo × Nat × List DiscoveredWorkflow)
    (h : (JsMap.keys acc.1).Nodup) :
    (JsMap.keys (exps.foldl mergeExploration acc).1).Nodup := by
  induction exps generalizing acc with
  | nil => exact h
  | cons e es ih =>
    rw [List.foldl_cons]
    apply ih
    rw [mergeExploration_fst]
    exact mergePage_foldl_nodup _ _ _ h

end Coordinator

/-- C8. With every requested id stored, `merge` counts `totalPages` as the sum
of page counts across the selected explorations (duplicates included),
`uniquePages` as the number of distinct normalized URLs, and
`duplicatesRemoved = totalPages - uniquePages`; in particular a single
zero-page exploration merges to all-zero counts, and two explorations of the
identical single page merge to `totalPages = 2, uniquePages = 1,
duplicatesRemoved = 1`. -/
theorem claim_C8_merge_counts (store : JsMap ExplorationResult) (ids : List String)
    (hall : ∀ id ∈ ids, (store.getVal? id).isSome = true) (hne : ids ≠ []) :
    (∃ m, Coordinator.merge store ids = Except.ok m ∧
      m.totalPages = ((ids.filterMap fun id => store.getVal? id).map
        (fun e => e.pages.length)).sum ∧
      m.uniquePages = (((ids.filterMap fun id => store.getVal? id).map
        (fun e => e.pages.map (fun p => normalizeUrl p.url))).join).dedup.length ∧
      m.duplicatesRemoved = m.totalPages - m.uniquePages) ∧
    (∃ m, Coordinator.merge
        [("A", { explorationId := "A", target := { url := "http://s" }, sessionId := "sa",
                 status := .partialCrawl, error := none, pages := [], workflows := [] })]
        ["A"] = Except.ok m
      ∧ m.totalPages = 0 ∧ m.uniquePages = 0 ∧ m.duplicatesRemoved = 0) ∧
    (∃ m, Coordinator.merge
        [("A", { explorationId := "A", target := { url := "http://s" }, sessionId := "sa",
                 status := .completed, error := none,
                 pages := [{ url := "http://s/p", title := "p", depth := 0, elements := 4,
                             forms := [], links := [], interactiveElements := [] }],
                 workflows := [] }),
         ("B", { explorationId := "B", target := { url := "http://s" }, sessionId := "sb",
                 status := .completed, error := none,
                 pages := [{ url := "http://s/p", title := "p", depth := 0, elements := 4,
                             forms := [], links := [], interactiveElements := [] }],
                 workflows := [] })]
        ["A", "B"] = Except.ok m
      ∧ m.totalPages = 2 ∧ m.uniquePages = 1 ∧ m.duplicatesRemoved = 1) := by
  refine ⟨?_, ⟨_, rfl, rfl, rfl, rfl⟩, ⟨_, rfl, rfl, rfl, rfl⟩⟩
  have hexpne : (ids.filterMap fun id => store.getVal? id) ≠ [] := by
    cases ids with
    | nil => exact absurd rfl hne
    | cons a as =>
      have ha := hall a (by simp)
      rcases Option.isSome_iff_exists.mp ha with ⟨v, hv⟩
      rw [List.filterMap_cons, hv]
      simp
  have hem : (ids.filterMap fun id => store.getVal? id).isEmpty = false := by
    rw [Bool.eq_false_iff]
    intro h
    exact hexpne (List.isEmpty_iff.mp h)
  simp only [Coordinator.merge]
  rw [if_neg (by rw [hem]; simp)]
  refine ⟨_, rfl, ?_, ?_, rfl⟩
  · rw [Coordinator.mergeExploration_foldl_total]
    simp
  · have hkeysnodup := Coordinator.mergeExploration_foldl_nodup
      (ids.filterMap fun id => store.getVal? id) ([], [], 0, []) (by simp [JsMap.keys])
    have hperm : (JsMap.keys ((ids.filterMap fun id => store.getVal? id).foldl
        Coordinator.mergeExploration ([], [], 0, [])).1).Perm
        ((((ids.filterMap fun id => store.getVal? id).map
          (fun e => e.pages.map (fun p => normalizeUrl p.url))).join).dedup) := by
      rw [List.perm_ext_iff_of_nodup hkeysnodup (List.nodup_dedup _)]
      intro k
      rw [Coordinator.mergeExploration_foldl_keys, List.mem_dedup]
      simp [JsMap.keys]
    have hlen : ((ids.filterMap fun id => store.getVal? id).foldl
        Coordinator.mergeExploration ([], [], 0, [])).1.length
        = (JsMap.keys ((ids.filterMap fun id => store.getVal? id).foldl
            Coordinator.mergeExploration ([], [], 0, [])).1).length := by
      rw [JsMap.keys, List.length_map]
    rw [hlen, hperm.length_eq]

/-- Witness for C8: the zero-page scenario, obtained by applying the counting
theorem at a concrete store. -/
theorem claim_C8_witness :
    ∃ m, Coordinator.merge
        [("A", { explorationId := "A", target := { url := "http://s" }, sessionId := "sa",
                 status := .partialCrawl, error := none, pages := [], workflows := [] })]
        ["A"] = Except.ok m
      ∧ m.totalPages = 0 ∧ m.uniquePages = 0 ∧ m.duplicatesRemoved = 0 :=
  (claim_C8_merge_counts
    [("A", { explorationId := "A", target := { url := "http://s" }, sessionId := "sa",
             status := .partialCrawl, error := none, pages := [], workflows := [] })]
    ["A"]
    (by intro id hid; simp at hid; rw [hid]; rfl)
    (by simp)).2.1

/-- C4 counterexample. The spec's example inputs are relative URLs; `new URL`
throws on them, so `normalizeUrl` returns them unchanged and the claimed
equalities fail: reordered query parameters of a relative URL stay distinct. -/
theorem claim_C4_counterexample :
    normalizeUrl "/a?b=1&a=2" = "/a?b=1&a=2" ∧
    normalizeUrl "/a?b=1&a=2" ≠ normalizeUrl "/a?a=2&b=1#frag" := by
  constructor
  · rfl
  · decide

/-- C4 (amended). `normalizeUrl` is idempotent on every input (parse failures
are returned unchanged; a normalized absolute URL re-normalizes to itself),
and for absolute http URLs it is order-independent in the query parameters and
strips the fragment and trailing slashes:
`normalize("http://example.com/a?b=1&a=2")` ==
`normalize("http://example.com/a?a=2&b=1#frag")` ==
`normalize("http://example.com/a/?a=2&b=1")`; order-independence holds in
general at the level of parsed URL parts for queries with distinct parameter
names. -/
theorem claim_C4_amended :
    (∀ s, normalizeUrl (normalizeUrl s) = normalizeUrl s) ∧
    (normalizeUrl "http://example.com/a?b=1&a=2"
       = normalizeUrl "http://example.com/a?a=2&b=1#frag" ∧
     normalizeUrl "http://example.com/a?a=2&b=1#frag"
       = normalizeUrl "http://example.com/a/?a=2&b=1") ∧
    (∀ (sch hst pth : List Char) (q1 q2 : List (List Char × List Char))
        (f1 f2 : Option (List Char)),
      List.Perm q1 q2 → (q1.map Prod.fst).Nodup →
      Url.normalizeParts ⟨sch, hst, pth, q1, f1⟩
        = Url.normalizeParts ⟨sch, hst, pth, q2, f2⟩) :=
  ⟨normalizeUrl_idem, ⟨by decide, by decide⟩,
   fun sch hst pth q1 q2 f1 f2 hp hnd =>
     Url.normalizeParts_query_order_independent sch hst pth q1 q2 f1 f2 hp hnd⟩

/-- Witness for C4: the parts-level order-independence applied to a concrete
two-parameter query and its reversal (one side carrying a fragment). -/
theorem claim_C4_witness :
    Url.normalizeParts
      ⟨("http").data, ("example.com").data, ("/a").data,
       [(("b").data, ("1").data), (("a").data, ("2").data)], none⟩
    = Url.normalizeParts
      ⟨("http").data, ("example.com").data, ("/a").data,
       [(("a").data, ("2").data), (("b").data, ("1").data)], some (("frag").data)⟩ :=
  claim_C4_amended.2.2 ("http").data ("example.com").data ("/a").data
    [(("b").data, ("1").data), (("a").data, ("2").data)]
    [(("a").data, ("2").data), (("b").data, ("1").data)]
    none (some (("frag").data)) (by decide) (by decide)

namespace ParallelExec

theorem skipAll_length (i : Nat) (steps : List PStep) :
    (skipAll i steps).length = steps.length := by
  induction steps generalizing i with
  | nil => rfl
  | cons s rest ih => simp [skipAll, ih]

theorem skipAll_status {i : Nat} {steps : List PStep} {r : StepResult}
    (h : r ∈ skipAll i steps) : r.status = .skipped := by
  induction steps generalizing i with
  | nil => simp [skipAll] at h
  | cons s rest ih =>
    rw [skipAll] at h
    rcases List.mem_cons.mp h with h' | h'
    · rw [h']
    · exact ih h'

theorem skipAll_getElem? {i : Nat} {steps : List PStep} {j : Nat} {r : StepResult}
    (h : (skipAll i steps)[j]? = some r) : r.status = .skipped :=
  skipAll_status (List.getElem?_mem h)

theorem runSteps_length (registry : List String) (outcome : Nat → StepOutcome)
    (i : Nat) (steps : List PStep) :
    (runSteps registry outcome i steps).length = steps.length := by
  induction steps generalizing i with
  | nil => rfl
  | cons s rest ih =>
    rw [runSteps]
    by_cases h1 : s.tool = "parallel_execute" ∨ s.tool = "batch_execute"
    · rw [if_pos h1]
      simp [skipAll_length]
    · rw [if_neg h1]
      by_cases h2 : ¬ registry.contains s.tool = true
      · rw [if_pos h2]
        simp [skipAll_length]
      · rw [if_neg h2]
        cases outcome i <;> simp [skipAll_length, ih]

/-- The error/skip shape of the step loop: whenever some recorded step has
status `error`, every later recorded step of the same task is `skipped`. -/
theorem runSteps_error_skips (registry : List String) (outcome : Nat → StepOutcome)
    (i : Nat) (steps : List PStep) :
    ∀ (k j : Nat) (rk rj : StepResult), (runSteps registry outcome i steps)[k]? = some rk →
      rk.status = .error → k < j →
      (runSteps registry outcome i steps)[j]? = some rj → rj.status = .skipped := by
  induction steps generalizing i with
  | nil => intro k j rk rj hk _ _ _; simp [runSteps] at hk
  | cons s rest ih =>
    intro k j rk rj hk hke hkj hj
    have herrCase : ∀ (hd : StepResult),
        (hd :: skipAll (i + 1) rest)[j]? = some rj → 0 < j → rj.status = .skipped := by
      intro hd hj' hj0
      cases j with
      | zero => omega
      | succ j' =>
        rw [List.getElem?_cons_succ] at hj'
        exact skipAll_getElem? hj'
    rw [runSteps] at hk hj
    by_cases h1 : s.tool = "parallel_execute" ∨ s.tool = "batch_execute"
    · rw [if_pos h1] at hk hj
      exact herrCase _ hj (by omega)
    · rw [if_neg h1] at hk hj
      by_cases h2 : ¬ registry.contains s.tool = true
      · rw [if_pos h2] at hk hj
        exact herrCase _ hj (by omega)
      · rw [if_neg h2] at hk hj
        cases ho : outcome i with
        | success content =>
          rw [ho] at hk hj
          cases k with
          | zero =>
            rw [List.getElem?_cons_zero] at hk
            rw [← Option.some.inj hk] at hke
            simp at hke
          | succ k' =>
            cases j with
            | zero => omega
            | succ j' =>
              rw [List.getElem?_cons_succ] at hk hj
              exact ih (i + 1) k' j' rk rj hk hke (by omega) hj
        | errorResult content =>
          rw [ho] at hk hj
          exact herrCase _ hj (by omega)
        | thrown msg =>
          rw [ho] at hk hj
          exact herrCase _ hj (by omega)

theorem perTaskResult_taskIndex (pool : JsMap GridSession) (registry : List String)
    (creation : Nat → Except String String) (outcome : Nat → Nat → StepOutcome)
    (i : Nat) (t : PTask) :
    (perTaskResult pool registry creation outcome i t).taskIndex = i := by
  rw [perTaskResult]
  cases t.sessionId with
  | some sid =>
    dsimp only
    by_cases h : (pool.getVal? sid).isSome = true
    · rw [if_pos h]; rfl
    · rw [if_neg h]
  | none =>
    dsimp only
    cases creation i with
    | ok sid => rfl
    | error msg => rfl

theorem mapIdxFrom_taskIndex_ge (f : Nat → PTask → TaskResult)
    (hf : ∀ i t, (f i t).taskIndex = i) (i : Nat) (ts : List PTask) :
    ∀ r ∈ mapIdxFrom f i ts, i ≤ r.taskIndex := by
  induction ts generalizing i with
  | nil => simp [mapIdxFrom]
  | cons t rest ih =>
    intro r hr
    rw [mapIdxFrom] at hr
    rcases List.mem_cons.mp hr with h' | h'
    · rw [h', hf]
    · have := ih (i + 1) r h'
      omega

theorem mapIdxFrom_pairwise (f : Nat → PTask → TaskResult)
    (hf : ∀ i t, (f i t).taskIndex = i) (i : Nat) (ts : List PTask) :
    (mapIdxFrom f i ts).Pairwise (fun a b => taskLe a b = true) := by
  induction ts generalizing i with
  | nil => simp [mapIdxFrom]
  | cons t rest ih =>
    rw [mapIdxFrom]
    refine List.pairwise_cons.mpr ⟨?_, ih (i + 1)⟩
    intro r hr
    have := mapIdxFrom_taskIndex_ge f hf (i + 1) rest r hr
    rw [taskLe, hf]
    simp
    omega

theorem mapIdxFrom_map_taskIndex (f : Nat → PTask → TaskResult)
    (hf : ∀ i t, (f i t).taskIndex = i) (i : Nat) (ts : List PTask) :
    (mapIdxFrom f i ts).map (fun r => r.taskIndex) = List.range' i ts.length := by
  induction ts generalizing i with
  | nil => rfl
  | cons t rest ih =>
    rw [mapIdxFrom, List.map_cons, hf, ih, List.length_cons, List.range'_succ]

end ParallelExec


namespace ParallelExec

theorem combined_perm (pool : JsMap GridSession) (registry : List String)
    (creation : Nat → Except String String) (outcome : Nat → Nat → StepOutcome)
    (i : Nat) (ts : List PTask) :
    List.Perm
      (((splitTasks pool i ts).2.1
          ++ (createPhase creation (splitTasks pool i ts).2.2).2)
        ++ ((splitTasks pool i ts).1
          ++ (createPhase creation (splitTasks pool i ts).2.2).1).map
            (execTask registry outcome))
      (mapIdxFrom (perTaskResult pool registry creation outcome) i ts) := by
  induction ts generalizing i with
  | nil => rfl
  | cons t rest ih =>
    rw [splitTasks, mapIdxFrom]
    cases hsid : t.sessionId with
    | some sid =>
      dsimp only
      by_cases hp : (pool.getVal? sid).isSome = true
      · rw [if_pos hp]
        dsimp only
        have hpt : perTaskResult pool registry creation outcome i t
            = execTask registry outcome
                { taskIndex := i, sessionId := sid, steps := t.steps } := by
          rw [perTaskResult, hsid]
          dsimp only
          rw [if_pos hp]
        rw [List.cons_append, List.map_cons, hpt]
        exact List.perm_middle.trans ((ih (i + 1)).cons _)
      · rw [if_neg hp]
        dsimp only
        have hpt : perTaskResult pool registry creation outcome i t
            = { taskIndex := i, sessionId := sid, status := .failed,
                error := some ("Session \"" ++ sid ++ "\" not found"),
                stepResults := [] } := by
          rw [perTaskResult, hsid]
          dsimp only
          rw [if_neg hp]
        rw [hpt, List.cons_append, List.cons_append]
        exact (ih (i + 1)).cons _
    | none =>
      dsimp only
      rw [createPhase]
      cases hc : creation i with
      | ok sid =>
        dsimp only
        have hpt : perTaskResult pool registry creation outcome i t
            = execTask registry outcome
                { taskIndex := i, sessionId := sid, steps := t.steps } := by
          rw [perTaskResult, hsid]
          dsimp only
          rw [hc]
        rw [hpt, List.map_append, List.map_cons, ← List.append_assoc]
        refine List.Perm.trans List.perm_middle (List.Perm.cons _ ?_)
        rw [List.append_assoc]
        have ih' := ih (i + 1)
        rw [List.map_append] at ih'
        exact ih'
      | error msg =>
        dsimp only
        have hpt : perTaskResult pool registry creation outcome i t
            = { taskIndex := i, sessionId := "", status := .failed,
                error := some ("Session creation failed: " ++ msg),
                stepResults := [] } := by
          rw [perTaskResult, hsid]
          dsimp only
          rw [hc]
        rw [hpt]
        refine List.Perm.trans (List.Perm.append_right _ List.perm_middle) ?_
        rw [List.cons_append]
        exact (ih (i + 1)).cons _

theorem taskLe_total (a b : TaskResult) : taskLe a b = true ∨ taskLe b a = true := by
  rw [taskLe, taskLe]
  rcases Nat.le_total a.taskIndex b.taskIndex with h | h
  · left; simpa using h
  · right; simpa using h

theorem taskLe_trans (a b c : TaskResult) (hab : taskLe a b = true)
    (hbc : taskLe b c = true) : taskLe a c = true := by
  rw [taskLe] at hab hbc ⊢
  simp only [decide_eq_true_eq] at hab hbc ⊢
  omega

theorem execute_eq_mapIdx (pool : JsMap GridSession) (registry : List String)
    (creation : Nat → Except String String) (outcome : Nat → Nat → StepOutcome)
    (tasks : List PTask) :
    execute pool registry creation outcome tasks
      = mapIdxFrom (perTaskResult pool registry creation outcome) 0 tasks := by
  rw [execute]
  have hperm : List.Perm
      (sortByLe taskLe
        (((splitTasks pool 0 tasks).2.1
            ++ (createPhase creation (splitTasks pool 0 tasks).2.2).2)
          ++ ((splitTasks pool 0 tasks).1
            ++ (createPhase creation (splitTasks pool 0 tasks).2.2).1).map
              (execTask registry outcome)))
      (mapIdxFrom (perTaskResult pool registry creation outcome) 0 tasks) :=
    (sortByLe_perm taskLe _).trans
      (combined_perm pool registry creation outcome 0 tasks)
  have hidx : ∀ i t, (perTaskResult pool registry creation outcome i t).taskIndex = i :=
    perTaskResult_taskIndex pool registry creation outcome
  have hnd2 : ((mapIdxFrom (perTaskResult pool registry creation outcome) 0 tasks).map
      (fun r => r.taskIndex)).Nodup := by
    rw [mapIdxFrom_map_taskIndex _ hidx]
    exact List.nodup_range' _ _
  have hnd1 : ((sortByLe taskLe
      (((splitTasks pool 0 tasks).2.1
          ++ (createPhase creation (splitTasks pool 0 tasks).2.2).2)
        ++ ((splitTasks pool 0 tasks).1
          ++ (createPhase creation (splitTasks pool 0 tasks).2.2).1).map
            (execTask registry outcome))).map (fun r => r.taskIndex)).Nodup :=
    ((hperm.map (fun r => r.taskIndex)).nodup_iff).mpr hnd2
  refine eq_of_perm_of_pairwise (fun r => r.taskIndex)
    (fun a b => decide (a ≤ b))
    (fun x y hx hy => by
      simp only [decide_eq_true_eq] at hx hy
      omega)
    hperm hnd1 ?_ ?_
  · exact sortByLe_pairwise taskLe_total taskLe_trans _
  · exact mapIdxFrom_pairwise _ hidx 0 tasks

end ParallelExec

namespace ParallelExec

theorem runSteps_unknown_tool (registry : List String) (outcome : Nat → StepOutcome)
    (i : Nat) (s : PStep) (rest : List PStep)
    (h1 : ¬ (s.tool = "parallel_execute" ∨ s.tool = "batch_execute"))
    (h2 : registry.contains s.tool = false) :
    runSteps registry outcome i (s :: rest)
      = { step := i + 1, tool := s.tool, status := .error,
          content := "Unknown tool: " ++ s.tool } :: skipAll (i + 1) rest := by
  rw [runSteps, if_neg h1, if_pos (by simpa using h2)]

theorem execTask_unknown_tool_failed (registry : List String)
    (outcome : Nat → Nat → StepOutcome) (rt : ResolvedTask) (s : PStep)
    (rest : List PStep)
    (h1 : ¬ (s.tool = "parallel_execute" ∨ s.tool = "batch_execute"))
    (h2 : registry.contains s.tool = false) (hsteps : rt.steps = s :: rest) :
    (execTask registry outcome rt).status = .failed := by
  have hr := runSteps_unknown_tool registry (outcome rt.taskIndex) 0 s rest h1 h2
  simp only [execTask]
  rw [hsteps, hr]
  simp

def c5Pool : JsMap GridSession :=
  [("s1", { sessionId := "s1", browser := "chrome", tags := [] }),
   ("s2", { sessionId := "s2", browser := "chrome", tags := [] }),
   ("s3", { sessionId := "s3", browser := "chrome", tags := [] })]

def c5Registry : List String := ["navigate", "click"]

def c5Creation : Nat → Except String String := fun _ => .error "no grid"

def c5Outcome : Nat → Nat → StepOutcome := fun ti si =>
  if ti = 1 ∧ si = 0 then .errorResult "element not found" else .success "ok"

def c5Tasks : List PTask :=
  [{ sessionId := some "s1", steps := [{ tool := "navigate" }, { tool := "click" }] },
   { sessionId := some "s2", steps := [{ tool := "navigate" }, { tool := "click" }] },
   { sessionId := some "s3", steps := [{ tool := "navigate" }] }]

def c5Expected : List TaskResult :=
  [{ taskIndex := 0, sessionId := "s1", status := .completed, error := none,
     stepResults :=
       [{ step := 1, tool := "navigate", status := .success, content := "ok" },
        { step := 2, tool := "click", status := .success, content := "ok" }] },
   { taskIndex := 1, sessionId := "s2", status := .failed, error := none,
     stepResults :=
       [{ step := 1, tool := "navigate", status := .error,
          content := "element not found" },
        { step := 2, tool := "click", status := .skipped,
          content := "Skipped due to previous error" }] },
   { taskIndex := 2, sessionId := "s3", status := .completed, error := none,
     stepResults :=
       [{ step := 1, tool := "navigate", status := .success, content := "ok" }] }]

/-- C5: in the parallel task executor every task's result is a function of
that task's own data alone (`execute` equals an index-aware map of the
per-task result over the submitted tasks, so no task's outcome affects any
other's); within one task, whenever a recorded step has status error, every
later recorded step of that task has status skipped; and in the concrete
3-task scenario where task 2's first step errors, task 2 reports failed with
its remaining step skipped while tasks 1 and 3 report completed. -/
theorem claim_C5 :
    (∀ (pool : JsMap GridSession) (registry : List String)
        (creation : Nat → Except String String)
        (outcome : Nat → Nat → StepOutcome) (tasks : List PTask),
        execute pool registry creation outcome tasks
          = mapIdxFrom (perTaskResult pool registry creation outcome) 0 tasks)
    ∧ (∀ (registry : List String) (outcome : Nat → StepOutcome) (i : Nat)
        (steps : List PStep) (k j : Nat) (rk rj : StepResult),
        (runSteps registry outcome i steps)[k]? = some rk →
        rk.status = .error → k < j →
        (runSteps registry outcome i steps)[j]? = some rj →
        rj.status = .skipped)
    ∧ execute c5Pool c5Registry c5Creation c5Outcome c5Tasks = c5Expected :=
  ⟨execute_eq_mapIdx, runSteps_error_skips, rfl⟩

theorem claim_C5_witness :
    StepResult.status
        { step := 2, tool := "click", status := StepStatus.skipped,
          content := "Skipped due to previous error" }
      = StepStatus.skipped :=
  claim_C5.2.1 c5Registry (c5Outcome 1) 0
    [{ tool := "navigate" }, { tool := "click" }] 0 1
    { step := 1, tool := "navigate", status := StepStatus.error,
      content := "element not found" }
    { step := 2, tool := "click", status := StepStatus.skipped,
      content := "Skipped due to previous error" }
    rfl rfl (by decide) rfl

/-- C10: a step naming a tool absent from the tool registry is recorded as an
error step reading Unknown tool with no execution attempt (the recorded
results do not depend on the step-outcome oracle at all), every later step of
that task is skipped, the task's status becomes failed, and other tasks are
unaffected (`execute` equals the per-task map). -/
theorem claim_C10 :
    (∀ (registry : List String) (outcome : Nat → StepOutcome) (i : Nat)
        (s : PStep) (rest : List PStep),
        ¬ (s.tool = "parallel_execute" ∨ s.tool = "batch_execute") →
        registry.contains s.tool = false →
        runSteps registry outcome i (s :: rest)
          = { step := i + 1, tool := s.tool, status := .error,
              content := "Unknown tool: " ++ s.tool } :: skipAll (i + 1) rest)
    ∧ (∀ (i : Nat) (rest : List PStep) (r : StepResult),
        r ∈ skipAll i rest → r.status = .skipped)
    ∧ (∀ (registry : List String) (outcome : Nat → Nat → StepOutcome)
        (rt : ResolvedTask) (s : PStep) (rest : List PStep),
        ¬ (s.tool = "parallel_execute" ∨ s.tool = "batch_execute") →
        registry.contains s.tool = false → rt.steps = s :: rest →
        (execTask registry outcome rt).status = .failed)
    ∧ (∀ (pool : JsMap GridSession) (registry : List String)
        (creation : Nat → Except String String)
        (outcome : Nat → Nat → StepOutcome) (tasks : List PTask),
        execute pool registry creation outcome tasks
          = mapIdxFrom (perTaskResult pool registry creation outcome) 0 tasks) :=
  ⟨runSteps_unknown_tool,
   fun _ _ _ h => skipAll_status h,
   execTask_unknown_tool_failed,
   execute_eq_mapIdx⟩

theorem claim_C10_witness :
    runSteps ["navigate"] (fun _ => StepOutcome.success "ok") 0
        [{ tool := "frobnicate" }, { tool := "click" }]
      = [{ step := 1, tool := "frobnicate", status := StepStatus.error,
           content := "Unknown tool: frobnicate" },
         { step := 2, tool := "click", status := StepStatus.skipped,
           content := "Skipped due to previous error" }] := by
  have h := claim_C10.1 ["navigate"] (fun _ => StepOutcome.success "ok") 0
    { tool := "frobnicate" } [{ tool := "click" }] (by decide) (by decide)
  rw [h]
  rfl

end ParallelExec

namespace ElementDiscovery

def c3El : DomElement :=
  { tagName := "button", idAttr := "go", textContent := "Go",
    x := 10, y := 10, width := 50, height := 20 }

def c3Page : List DomElement := [c3El]

end ElementDiscovery

/-- C3 counterexample: a session with NO cached snapshot does not make
`getElementByRef` fail — on a page with one visible button it captures a
fresh snapshot on the fly and resolves ref e1 successfully. -/
theorem claim_C3_counterexample :
    ElementDiscovery.getElementByRef none ElementDiscovery.c3Page "e1"
      = Except.ok ElementDiscovery.c3El := by rfl

/-- C3 (corrected): `getElementByRef` does not fail merely because the
session has no cached snapshot — a missing snapshot is replaced by a freshly
captured one, so the call behaves exactly as with that fresh snapshot cached;
and with a cached snapshot it fails precisely when the ref is absent from the
snapshot or no strategy of the prioritized locator chain yields a visible
match on the live page. -/
theorem claim_C3_amended :
    (∀ (page : List ElementDiscovery.DomElement) (ref : String),
        ElementDiscovery.getElementByRef none page ref
          = ElementDiscovery.getElementByRef
              (some (ElementDiscovery.captureSnapshot page)) page ref)
    ∧ (∀ (snap : JsMap ElementDiscovery.ElementInfo)
        (page : List ElementDiscovery.DomElement) (ref : String),
        (∃ e, ElementDiscovery.getElementByRef (some snap) page ref
            = Except.error e)
          ↔ (JsMap.getVal? snap ref = none
             ∨ ∃ info, JsMap.getVal? snap ref = some info
                 ∧ ElementDiscovery.findElementScript page info = none)) := by
  constructor
  · intro page ref
    rfl
  · intro snap page ref
    rw [ElementDiscovery.getElementByRef]
    have hes : ElementDiscovery.effectiveSnapshot (some snap) page = snap := rfl
    rw [hes]
    cases h : JsMap.getVal? snap ref with
    | none =>
      constructor
      · intro _
        exact Or.inl rfl
      · intro _
        exact ⟨_, rfl⟩
    | some info =>
      simp only [ElementDiscovery.findElementByInfo]
      cases hf : ElementDiscovery.findElementScript page info with
      | none =>
        constructor
        · intro _
          exact Or.inr ⟨info, rfl, hf⟩
        · intro _
          exact ⟨_, rfl⟩
      | some el =>
        constructor
        · rintro ⟨e, he⟩
          cases he
        · rintro (hnone | ⟨info2, hi, hscript⟩)
          · cases hnone
          · injection hi with hi2
            rw [← hi2, hf] at hscript
            cases hscript

namespace Coordinator

theorem eventsOk_enqueues (md : Nat) (v : List String) (depth : Nat)
    (links : List (String × Nat)) (tail : List CrawlEvent)
    (hd : depth < md)
    (hall : ∀ q ∈ links, q.2 = depth + 1 ∧ normalizeUrl q.1 ∉ v)
    (htail : EventsOk md v tail) :
    EventsOk md v
      ((links.map fun q => CrawlEvent.enqueueEv (normalizeUrl q.1) q.2 depth) ++ tail) := by
  induction links with
  | nil => simpa using htail
  | cons q rest ih =>
    rw [List.map_cons, List.cons_append]
    exact ⟨hd, (hall q (by simp)).1, (hall q (by simp)).2,
      ih (fun p hp => hall p (by simp [hp]))⟩

theorem bfsLoop_eventsOk (web : String → Option FetchedPage) (maxDepth maxPages : Nat)
    (visited : List String) (pages : List DiscoveredPageDetail)
    (queue : List (String × Nat)) :
    EventsOk maxDepth visited (bfsLoop web maxDepth maxPages visited pages queue).2 := by
  induction visited, pages, queue using bfsLoop.induct web maxDepth maxPages with
  | case1 x pages => rw [bfsLoop]; trivial
  | case2 visited pages url depth qrest hlen nurl hcont ih =>
    rw [bfsLoop, dif_pos hlen]
    dsimp only
    rw [if_pos (show visited.contains (normalizeUrl url) = true from hcont)]
    exact ih
  | case3 visited pages url depth qrest hlen nurl hcont v hweb ih =>
    rw [bfsLoop, dif_pos hlen]
    dsimp only
    rw [if_neg (show ¬ visited.contains (normalizeUrl url) = true from hcont)]
    rw [show web url = none from hweb]
    dsimp only
    refine ⟨?_, ih⟩
    intro hmem
    exact (show ¬ visited.contains (normalizeUrl url) = true from hcont) (by simpa using hmem)
  | case4 visited pages url depth qrest hlen nurl hcont v f hweb page newLinks ih =>
    rw [bfsLoop, dif_pos hlen]
    dsimp only
    rw [if_neg (show ¬ visited.contains (normalizeUrl url) = true from hcont)]
    rw [show web url = some f from hweb]
    dsimp only
    refine ⟨?_, ?_⟩
    · intro hmem
      exact (show ¬ visited.contains (normalizeUrl url) = true from hcont) (by simpa using hmem)
    · unfold_let v page newLinks at ih
      by_cases hdm : depth < maxDepth
      · rw [if_pos hdm]
        rw [dif_pos hdm] at ih
        refine eventsOk_enqueues maxDepth _ depth _ _ hdm ?_ ih
        intro q hq
        rcases List.mem_map.mp hq with ⟨l, hl, hql⟩
        rcases List.mem_filter.mp hl with ⟨hlm, hcondfil⟩
        constructor
        · rw [← hql]
        · rw [← hql]
          intro hmem
          simp only [Bool.and_eq_true, Bool.not_eq_true'] at hcondfil
          have hcf : (normalizeUrl url :: visited).contains (normalizeUrl l.href) = false :=
            hcondfil.1.2
          have hmem2 : normalizeUrl l.href ∈ normalizeUrl url :: visited := hmem
          exact absurd hmem2 (by simpa using hcf)
      · rw [if_neg hdm]
        rw [dif_neg hdm] at ih
        simpa using ih
  | case5 visited pages url depth qrest h =>
    rw [bfsLoop, dif_neg h]
    trivial

theorem bfsLoop_length_le (web : String → Option FetchedPage) (maxDepth maxPages : Nat)
    (visited : List String) (pages : List DiscoveredPageDetail)
    (queue : List (String × Nat)) (hp : pages.length ≤ maxPages) :
    (bfsLoop web maxDepth maxPages visited pages queue).1.length ≤ maxPages := by
  induction visited, pages, queue using bfsLoop.induct web maxDepth maxPages with
  | case1 x pages => rw [bfsLoop]; exact hp
  | case2 visited pages url depth qrest hlen nurl hcont ih =>
    rw [bfsLoop, dif_pos hlen]
    dsimp only
    rw [if_pos (show visited.contains (normalizeUrl url) = true from hcont)]
    exact ih hp
  | case3 visited pages url depth qrest hlen nurl hcont v hweb ih =>
    rw [bfsLoop, dif_pos hlen]
    dsimp only
    rw [if_neg (show ¬ visited.contains (normalizeUrl url) = true from hcont)]
    rw [show web url = none from hweb]
    dsimp only
    exact ih hp
  | case4 visited pages url depth qrest hlen nurl hcont v f hweb page newLinks ih =>
    rw [bfsLoop, dif_pos hlen]
    dsimp only
    rw [if_neg (show ¬ visited.contains (normalizeUrl url) = true from hcont)]
    rw [show web url = some f from hweb]
    dsimp only
    refine ih ?_
    simp only [List.length_append, List.length_cons, List.length_nil]
    omega
  | case5 visited pages url depth qrest h =>
    rw [bfsLoop, dif_neg h]
    exact hp

end Coordinator

namespace Coordinator

def c9LinkB : LinkInfo := { href := "http://s/b", text := "B", isInternal := true }
def c9LinkC : LinkInfo := { href := "http://s/c", text := "C", isInternal := true }

def c9FA : FetchedPage :=
  { currentUrl := "http://s/a", title := "A", elements := 2, forms := [],
    links := [c9LinkB, c9LinkC], interactiveElements := [] }

def c9FB : FetchedPage :=
  { currentUrl := "http://s/b", title := "B", elements := 0, forms := [],
    links := [], interactiveElements := [] }

def c9FC : FetchedPage :=
  { currentUrl := "http://s/c", title := "C", elements := 0, forms := [],
    links := [], interactiveElements := [] }

def c9web : String → Option FetchedPage := fun u =>
  if u = "http://s/a" then some c9FA
  else if u = "http://s/b" then some c9FB
  else if u = "http://s/c" then some c9FC
  else none

def c9PA : DiscoveredPageDetail :=
  { url := "http://s/a", title := "A", depth := 0, elements := 2, forms := [],
    links := [c9LinkB, c9LinkC], interactiveElements := [] }

def c9PB : DiscoveredPageDetail :=
  { url := "http://s/b", title := "B", depth := 1, elements := 0, forms := [],
    links := [], interactiveElements := [] }

def c9PC : DiscoveredPageDetail :=
  { url := "http://s/c", title := "C", depth := 1, elements := 0, forms := [],
    links := [], interactiveElements := [] }

theorem c9_stepA4 :
    bfsLoop c9web 1 5 ["http://s/c", "http://s/b", "http://s/a"] [c9PA, c9PB, c9PC] []
      = ([c9PA, c9PB, c9PC], []) := by
  rw [bfsLoop]

theorem c9_stepA3 :
    bfsLoop c9web 1 5 ["http://s/b", "http://s/a"] [c9PA, c9PB] [("http://s/c", 1)]
      = ([c9PA, c9PB, c9PC], [CrawlEvent.visitEv "http://s/c"]) := by
  have h : bfsLoop c9web 1 5 ["http://s/b", "http://s/a"] [c9PA, c9PB] [("http://s/c", 1)]
      = ((bfsLoop c9web 1 5 ["http://s/c", "http://s/b", "http://s/a"]
            [c9PA, c9PB, c9PC] []).1,
         CrawlEvent.visitEv "http://s/c"
           :: (bfsLoop c9web 1 5 ["http://s/c", "http://s/b", "http://s/a"]
                 [c9PA, c9PB, c9PC] []).2) := by
    conv_lhs => rw [bfsLoop]
    rfl
  rw [h, c9_stepA4]

theorem c9_stepA2 :
    bfsLoop c9web 1 5 ["http://s/a"] [c9PA] [("http://s/b", 1), ("http://s/c", 1)]
      = ([c9PA, c9PB, c9PC],
         [CrawlEvent.visitEv "http://s/b", CrawlEvent.visitEv "http://s/c"]) := by
  have h : bfsLoop c9web 1 5 ["http://s/a"] [c9PA] [("http://s/b", 1), ("http://s/c", 1)]
      = ((bfsLoop c9web 1 5 ["http://s/b", "http://s/a"] [c9PA, c9PB]
            [("http://s/c", 1)]).1,
         CrawlEvent.visitEv "http://s/b"
           :: (bfsLoop c9web 1 5 ["http://s/b", "http://s/a"] [c9PA, c9PB]
                 [("http://s/c", 1)]).2) := by
    conv_lhs => rw [bfsLoop]
    rfl
  rw [h, c9_stepA3]

theorem c9_stepA1 :
    bfsLoop c9web 1 5 [] [] [("http://s/a", 0)]
      = ([c9PA, c9PB, c9PC],
         [CrawlEvent.visitEv "http://s/a",
          CrawlEvent.enqueueEv "http://s/b" 1 0,
          CrawlEvent.enqueueEv "http://s/c" 1 0,
          CrawlEvent.visitEv "http://s/b", CrawlEvent.visitEv "http://s/c"]) := by
  have h : bfsLoop c9web 1 5 [] [] [("http://s/a", 0)]
      = ((bfsLoop c9web 1 5 ["http://s/a"] [c9PA]
            [("http://s/b", 1), ("http://s/c", 1)]).1,
         CrawlEvent.visitEv "http://s/a"
           :: ([CrawlEvent.enqueueEv "http://s/b" 1 0,
                CrawlEvent.enqueueEv "http://s/c" 1 0]
             ++ (bfsLoop c9web 1 5 ["http://s/a"] [c9PA]
                   [("http://s/b", 1), ("http://s/c", 1)]).2)) := by
    conv_lhs => rw [bfsLoop]
    rfl
  rw [h, c9_stepA2]
  rfl

def c9F0 : FetchedPage :=
  { currentUrl := "http://t/b", title := "B0", elements := 1, forms := [],
    links := [], interactiveElements := [] }

def c9webB : String → Option FetchedPage := fun u =>
  if u = "http://t/b" then some c9F0 else none

def c9P0 : DiscoveredPageDetail :=
  { url := "http://t/b", title := "B0", depth := 0, elements := 1, forms := [],
    links := [], interactiveElements := [] }

theorem c9_stepB2 :
    bfsLoop c9webB 1 5 ["http://t/b"] [c9P0] [] = ([c9P0], []) := by
  rw [bfsLoop]

theorem c9_stepB1 :
    bfsLoop c9webB 1 5 [] [] [("http://t/b", 0)]
      = ([c9P0], [CrawlEvent.visitEv "http://t/b"]) := by
  have h : bfsLoop c9webB 1 5 [] [] [("http://t/b", 0)]
      = ((bfsLoop c9webB 1 5 ["http://t/b"] [c9P0] []).1,
         CrawlEvent.visitEv "http://t/b"
           :: (bfsLoop c9webB 1 5 ["http://t/b"] [c9P0] []).2) := by
    conv_lhs => rw [bfsLoop]
    rfl
  rw [h, c9_stepB2]

end Coordinator

/-- C9: every crawl trace is sound — a page fetch is only ever of a normalized
key not yet visited (which it then marks visited) and a link is only enqueued
when its normalized key is unvisited at that moment, at depth one more than
the fetching page's depth, which is strictly below maxDepth; at most maxPages
pages are recorded; and concretely with maxDepth 1 and maxPages 5 a start page
with two internal links yields exactly 3 discovered pages while a start page
with no links yields exactly 1. -/
theorem claim_C9 :
    (∀ (web : String → Option Coordinator.FetchedPage) (startUrl : String)
        (maxDepth maxPages : Nat),
        Coordinator.EventsOk maxDepth []
          (Coordinator.discoverPages web startUrl maxDepth maxPages).2)
    ∧ (∀ (web : String → Option Coordinator.FetchedPage) (startUrl : String)
        (maxDepth maxPages : Nat),
        (Coordinator.discoverPages web startUrl maxDepth maxPages).1.length
          ≤ maxPages)
    ∧ Coordinator.discoverPages Coordinator.c9web "http://s/a" 1 5
        = ([Coordinator.c9PA, Coordinator.c9PB, Coordinator.c9PC],
           [Coordinator.CrawlEvent.visitEv "http://s/a",
            Coordinator.CrawlEvent.enqueueEv "http://s/b" 1 0,
            Coordinator.CrawlEvent.enqueueEv "http://s/c" 1 0,
            Coordinator.CrawlEvent.visitEv "http://s/b",
            Coordinator.CrawlEvent.visitEv "http://s/c"])
    ∧ Coordinator.discoverPages Coordinator.c9webB "http://t/b" 1 5
        = ([Coordinator.c9P0], [Coordinator.CrawlEvent.visitEv "http://t/b"]) := by
  refine ⟨?_, ?_, ?_, ?_⟩
  · intro web startUrl maxDepth maxPages
    exact Coordinator.bfsLoop_eventsOk web maxDepth maxPages [] [] [(startUrl, 0)]
  · intro web startUrl maxDepth maxPages
    exact Coordinator.bfsLoop_length_le web maxDepth maxPages [] [] [(startUrl, 0)]
      (by simp)
  · rw [Coordinator.discoverPages, Coordinator.c9_stepA1]
  · rw [Coordinator.discoverPages, Coordinator.c9_stepB1]

namespace Coordinator

theorem explore_length (ts : List (ExplorationTarget × TargetOutcome)) :
    ∀ (c : Nat) (store : JsMap ExplorationResult),
      (explore c store ts).2.2.length = ts.length := by
  induction ts with
  | nil => intro c store; rfl
  | cons p rest ih =>
    intro c store
    rcases p with ⟨t, oc⟩
    cases oc with
    | createFail msg =>
      simp only [explore]
      simp [ih]
    | crawlThrow msg =>
      simp only [explore]
      simp [ih]
    | crawlOk pages wfs =>
      simp only [explore]
      simp [ih]

theorem explore_store_getVal (ts : List (ExplorationTarget × TargetOutcome)) :
    ∀ (c : Nat) (store : JsMap ExplorationResult) (key : String),
      (∀ k, c < k → key ≠ "exp-" ++ natStr k) →
      JsMap.getVal? (explore c store ts).2.1 key = JsMap.getVal? store key := by
  induction ts with
  | nil => intro c store key hk; rfl
  | cons p rest ih =>
    intro c store key hk
    rcases p with ⟨t, oc⟩
    cases oc with
    | createFail msg =>
      simp only [explore]
      exact ih (c + 1) store key (fun k hku => hk k (by omega))
    | crawlThrow msg =>
      simp only [explore]
      rw [ih (c + 1) _ key (fun k hku => hk k (by omega))]
      exact JsMap.getVal?_setVal_ne store _ (hk (c + 1) (by omega))
    | crawlOk pages wfs =>
      simp only [explore]
      rw [ih (c + 1) _ key (fun k hku => hk k (by omega))]
      exact JsMap.getVal?_setVal_ne store _ (hk (c + 1) (by omega))

end Coordinator

namespace Coordinator

theorem explore_spec_createFail (ts : List (ExplorationTarget × TargetOutcome)) :
    ∀ (c : Nat) (store : JsMap ExplorationResult) (i : Nat)
      (t : ExplorationTarget) (msg : String),
      ts[i]? = some (t, TargetOutcome.createFail msg) →
      (explore c store ts).2.2[i]? = some
        { explorationId := "exp-error", target := { url := "" }, sessionId := "",
          status := .failed, error := some ("Error: " ++ msg),
          pages := [], workflows := [] } := by
  induction ts with
  | nil => intro c store i t msg h; simp at h
  | cons p rest ih =>
    intro c store i t msg h
    rcases p with ⟨t0, oc0⟩
    cases i with
    | zero =>
      rw [List.getElem?_cons_zero] at h
      simp only [Option.some.injEq, Prod.mk.injEq] at h
      obtain ⟨ht, hoc⟩ := h
      subst ht
      subst hoc
      simp only [explore]
      rw [List.getElem?_cons_zero]
    | succ j =>
      rw [List.getElem?_cons_succ] at h
      cases oc0 with
      | createFail m0 =>
        simp only [explore]
        rw [List.getElem?_cons_succ]
        exact ih (c + 1) store j t msg h
      | crawlThrow m0 =>
        simp only [explore]
        rw [List.getElem?_cons_succ]
        exact ih (c + 1) _ j t msg h
      | crawlOk pg wf =>
        simp only [explore]
        rw [List.getElem?_cons_succ]
        exact ih (c + 1) _ j t msg h

theorem explore_spec_crawlThrow (ts : List (ExplorationTarget × TargetOutcome)) :
    ∀ (c : Nat) (store : JsMap ExplorationResult) (i : Nat)
      (t : ExplorationTarget) (msg : String),
      ts[i]? = some (t, TargetOutcome.crawlThrow msg) →
      ∃ r, (explore c store ts).2.2[i]? = some r
        ∧ r.explorationId = "exp-" ++ natStr (c + i + 1)
        ∧ r.status = ExplorationStatus.failed
        ∧ r.error = some msg
        ∧ r.target = t
        ∧ getResult (explore c store ts).2.1 r.explorationId = some r := by
  induction ts with
  | nil => intro c store i t msg h; simp at h
  | cons p rest ih =>
    intro c store i t msg h
    rcases p with ⟨t0, oc0⟩
    cases i with
    | zero =>
      rw [List.getElem?_cons_zero] at h
      simp only [Option.some.injEq, Prod.mk.injEq] at h
      obtain ⟨ht, hoc⟩ := h
      subst ht
      subst hoc
      simp only [explore]
      refine ⟨_, List.getElem?_cons_zero, rfl, rfl, rfl, rfl, ?_⟩
      · have hpres := explore_store_getVal rest (c + 1)
          (store.setVal ("exp-" ++ natStr (c + 1))
            { explorationId := "exp-" ++ natStr (c + 1), target := t0,
              sessionId := ("exp-" ++ natStr (c + 1)) ++ "-session",
              status := .failed, error := some msg, pages := [], workflows := [] })
          ("exp-" ++ natStr (c + 1))
          (fun k hku heq => absurd (prefixed_natStr_inj heq) (by omega))
        exact hpres.trans (JsMap.getVal?_setVal_self store _ _)
    | succ j =>
      rw [List.getElem?_cons_succ] at h
      have harith : c + 1 + j + 1 = c + (j + 1) + 1 := by omega
      cases oc0 with
      | createFail m0 =>
        obtain ⟨r, hr, hid, hst, herr, htg, hget⟩ := ih (c + 1) store j t msg h
        refine ⟨r, ?_, ?_, hst, herr, htg, ?_⟩
        · simp only [explore]
          rw [List.getElem?_cons_succ]
          exact hr
        · rw [hid, harith]
        · simp only [explore]
          exact hget
      | crawlThrow m0 =>
        obtain ⟨r, hr, hid, hst, herr, htg, hget⟩ := ih (c + 1) _ j t msg h
        refine ⟨r, ?_, ?_, hst, herr, htg, ?_⟩
        · simp only [explore]
          rw [List.getElem?_cons_succ]
          exact hr
        · rw [hid, harith]
        · simp only [explore]
          exact hget
      | crawlOk pg wf =>
        obtain ⟨r, hr, hid, hst, herr, htg, hget⟩ := ih (c + 1) _ j t msg h
        refine ⟨r, ?_, ?_, hst, herr, htg, ?_⟩
        · simp only [explore]
          rw [List.getElem?_cons_succ]
          exact hr
        · rw [hid, harith]
        · simp only [explore]
          exact hget

theorem explore_spec_crawlOk (ts : List (ExplorationTarget × TargetOutcome)) :
    ∀ (c : Nat) (store : JsMap ExplorationResult) (i : Nat)
      (t : ExplorationTarget) (pages : List DiscoveredPageDetail)
      (wfs : List DiscoveredWorkflow),
      ts[i]? = some (t, TargetOutcome.crawlOk pages wfs) →
      ∃ r, (explore c store ts).2.2[i]? = some r
        ∧ r.explorationId = "exp-" ++ natStr (c + i + 1)
        ∧ r.status = (if pages.length > 0 then ExplorationStatus.completed
            else ExplorationStatus.partialCrawl)
        ∧ r.error = none
        ∧ r.pages = pages
        ∧ r.workflows = wfs
        ∧ r.target = t
        ∧ getResult (explore c store ts).2.1 r.explorationId = some r := by
  induction ts with
  | nil => intro c store i t pages wfs h; simp at h
  | cons p rest ih =>
    intro c store i t pages wfs h
    rcases p with ⟨t0, oc0⟩
    cases i with
    | zero =>
      rw [List.getElem?_cons_zero] at h
      simp only [Option.some.injEq, Prod.mk.injEq] at h
      obtain ⟨ht, hoc⟩ := h
      subst ht
      subst hoc
      simp only [explore]
      refine ⟨_, List.getElem?_cons_zero, rfl, rfl, rfl, rfl, rfl, rfl, ?_⟩
      · have hpres := explore_store_getVal rest (c + 1)
          (store.setVal ("exp-" ++ natStr (c + 1))
            { explorationId := "exp-" ++ natStr (c + 1), target := t0,
              sessionId := ("exp-" ++ natStr (c + 1)) ++ "-session",
              status := if pages.length > 0 then .completed else .partialCrawl,
              error := none, pages := pages, workflows := wfs })
          ("exp-" ++ natStr (c + 1))
          (fun k hku heq => absurd (prefixed_natStr_inj heq) (by omega))
        exact hpres.trans (JsMap.getVal?_setVal_self store _ _)
    | succ j =>
      rw [List.getElem?_cons_succ] at h
      have harith : c + 1 + j + 1 = c + (j + 1) + 1 := by omega
      cases oc0 with
      | createFail m0 =>
        obtain ⟨r, hr, hid, hst, herr, hpg, hwf, htg, hget⟩ := ih (c + 1) store j t pages wfs h
        refine ⟨r, ?_, ?_, hst, herr, hpg, hwf, htg, ?_⟩
        · simp only [explore]
          rw [List.getElem?_cons_succ]
          exact hr
        · rw [hid, harith]
        · simp only [explore]
          exact hget
      | crawlThrow m0 =>
        obtain ⟨r, hr, hid, hst, herr, hpg, hwf, htg, hget⟩ := ih (c + 1) _ j t pages wfs h
        refine ⟨r, ?_, ?_, hst, herr, hpg, hwf, htg, ?_⟩
        · simp only [explore]
          rw [List.getElem?_cons_succ]
          exact hr
        · rw [hid, harith]
        · simp only [explore]
          exact hget
      | crawlOk pg wf =>
        obtain ⟨r, hr, hid, hst, herr, hpg, hwf, htg, hget⟩ := ih (c + 1) _ j t pages wfs h
        refine ⟨r, ?_, ?_, hst, herr, hpg, hwf, htg, ?_⟩
        · simp only [explore]
          rw [List.getElem?_cons_succ]
          exact hr
        · rw [hid, harith]
        · simp only [explore]
          exact hget

end Coordinator

namespace Coordinator

/-- The `Promise.allSettled` placeholder for a rejected per-target task. -/
def createFailPlaceholder (msg : String) : ExplorationResult :=
  { explorationId := "exp-error", target := { url := "" }, sessionId := "",
    status := .failed, error := some ("Error: " ++ msg),
    pages := [], workflows := [] }

def c1Target : ExplorationTarget := { url := "http://x" }

end Coordinator

/-- C1 counterexample: with a single target whose session creation fails,
`explore` does return one failed result carrying the error message, but that
result has the placeholder id exp-error, the store stays empty, and
`getResult` cannot retrieve it — the failed target is NOT recorded. -/
theorem claim_C1_counterexample :
    Coordinator.explore 0 []
        [(Coordinator.c1Target, Coordinator.TargetOutcome.createFail "boom")]
      = (1, [], [Coordinator.createFailPlaceholder "boom"])
    ∧ Coordinator.getResult
        (Coordinator.explore 0 []
          [(Coordinator.c1Target,
            Coordinator.TargetOutcome.createFail "boom")]).2.1 "exp-error"
      = none :=
  ⟨rfl, rfl⟩

/-- C1 (corrected): `explore` returns exactly one result per submitted target
(for any N, in particular N∈[1,10]); a target whose crawl threw after session
creation is stored under its fresh id `exp-` counter and retrievable via
`getResult` with a failed status and the error message, and a successful
crawl is likewise stored and retrievable (completed when at least one page
was captured, partial otherwise); but a target whose session creation failed
yields only the returned placeholder with id exp-error and error message
`Error:` reason, which is never written to the store, so `getResult` cannot
retrieve it. -/
theorem claim_C1_amended :
    (∀ (c : Nat) (store : JsMap ExplorationResult)
        (ts : List (ExplorationTarget × Coordinator.TargetOutcome)),
        (Coordinator.explore c store ts).2.2.length = ts.length)
    ∧ (∀ (c : Nat) (store : JsMap ExplorationResult)
        (ts : List (ExplorationTarget × Coordinator.TargetOutcome))
        (i : Nat) (t : ExplorationTarget) (msg : String),
        ts[i]? = some (t, Coordinator.TargetOutcome.createFail msg) →
        (Coordinator.explore c store ts).2.2[i]?
          = some (Coordinator.createFailPlaceholder msg))
    ∧ (∀ (c : Nat) (store : JsMap ExplorationResult)
        (ts : List (ExplorationTarget × Coordinator.TargetOutcome)),
        JsMap.getVal? store "exp-error" = none →
        Coordinator.getResult (Coordinator.explore c store ts).2.1 "exp-error"
          = none)
    ∧ (∀ (c : Nat) (store : JsMap ExplorationResult)
        (ts : List (ExplorationTarget × Coordinator.TargetOutcome))
        (i : Nat) (t : ExplorationTarget) (msg : String),
        ts[i]? = some (t, Coordinator.TargetOutcome.crawlThrow msg) →
        ∃ r, (Coordinator.explore c store ts).2.2[i]? = some r
          ∧ r.explorationId = "exp-" ++ natStr (c + i + 1)
          ∧ r.status = ExplorationStatus.failed
          ∧ r.error = some msg
          ∧ r.target = t
          ∧ Coordinator.getResult (Coordinator.explore c store ts).2.1
              r.explorationId = some r)
    ∧ (∀ (c : Nat) (store : JsMap ExplorationResult)
        (ts : List (ExplorationTarget × Coordinator.TargetOutcome))
        (i : Nat) (t : ExplorationTarget)
        (pages : List DiscoveredPageDetail)
        (wfs : List DiscoveredWorkflow),
        ts[i]? = some (t, Coordinator.TargetOutcome.crawlOk pages wfs) →
        ∃ r, (Coordinator.explore c store ts).2.2[i]? = some r
          ∧ r.explorationId = "exp-" ++ natStr (c + i + 1)
          ∧ r.status = (if pages.length > 0 then ExplorationStatus.completed
              else ExplorationStatus.partialCrawl)
          ∧ r.error = none
          ∧ r.pages = pages
          ∧ r.workflows = wfs
          ∧ r.target = t
          ∧ Coordinator.getResult (Coordinator.explore c store ts).2.1
              r.explorationId = some r) := by
  refine ⟨?_, ?_, ?_, ?_, ?_⟩
  · intro c store ts
    exact Coordinator.explore_length ts c store
  · intro c store ts i t msg h
    exact Coordinator.explore_spec_createFail ts c store i t msg h
  · intro c store ts h
    exact (Coordinator.explore_store_getVal ts c store "exp-error"
      (fun k _ => Ne.symm (expId_ne_error k))).trans h
  · intro c store ts i t msg h
    exact Coordinator.explore_spec_crawlThrow ts c store i t msg h
  · intro c store ts i t pages wfs h
    exact Coordinator.explore_spec_crawlOk ts c store i t pages wfs h

theorem claim_C1_witness :
    ∃ r, (Coordinator.explore 0 []
        [(Coordinator.c1Target, Coordinator.TargetOutcome.crawlThrow "nav broke")]).2.2[0]?
        = some r
      ∧ r.explorationId = "exp-" ++ natStr (0 + 0 + 1)
      ∧ r.status = ExplorationStatus.failed
      ∧ r.error = some "nav broke"
      ∧ r.target = Coordinator.c1Target
      ∧ Coordinator.getResult
          (Coordinator.explore 0 []
            [(Coordinator.c1Target,
              Coordinator.TargetOutcome.crawlThrow "nav broke")]).2.1
          r.explorationId = some r :=
  claim_C1_amended.2.2.2.1 0 []
    [(Coordinator.c1Target, Coordinator.TargetOutcome.crawlThrow "nav broke")]
    0 Coordinator.c1Target "nav broke" rfl
